import Mathlib

/-!
# dnsla: a libdns provider for dns.la

A shallow embedding of `models.go`, `client.go` and `provider.go`.

* Every Go `int` / `time.Duration` is a 64-bit signed integer, embedded as `Int`.
  The only arithmetic the code performs is the truncating division of a duration by
  `time.Second` and the constant `600 * time.Second`; neither can leave the 64-bit range.
* `MakeApiRequest` is the boundary of the program.  The remote service is a value of
  type `Api`: for every kind of request, a function from the requests made so far and
  the new request to either an error text or the decoded response.  A function of the
  whole history can behave as any deterministic service, with any state.
* Every operation takes the list of requests made so far (`log`) and returns an
  `Outcome`: the two Go return values `([]libdns.Record, error)` and the extended log.
  The `Authorization` header is the same on every request and is not part of a `Request`.
* The two library functions that the code calls on record names and TTL texts
  (`libdns.RelativeName`, `time.ParseDuration`) are fields of `Lib`.
-/

namespace Dnsla

/-! ## Data model (`models.go`, `libdns.Record`) -/

/-- One `time.Second`, in nanoseconds. -/
def second : Int := 1000000000

/-- The record of `libdns` (`Typ` is the field `Type`; `TTL` is a `time.Duration`
in nanoseconds). -/
structure Record where
  ID : String
  Typ : String
  Name : String
  Value : String
  TTL : Int
  Priority : Int
  deriving DecidableEq, Repr

/-- The fields of `dnslaDomainResponse` that the code reads: only `ID`. -/
structure dnslaDomainResponse where
  ID : String
  deriving DecidableEq, Repr

/-- The fields of `dnslaDomainRecordResponse` that `toLibdnsRecord` reads. -/
structure dnslaDomainRecordResponse where
  ID : String
  Host : String
  Typ : Int
  Data : String
  TTL : Int
  Weight : Int
  deriving DecidableEq, Repr

/-- The listing page `dnslaDomainRecordsResponse`. -/
structure dnslaDomainRecordsResponse where
  Total : Int
  Results : List dnslaDomainRecordResponse
  deriving DecidableEq, Repr

/-- The body of a `PUT /api/record` request. -/
structure dnslaRecordPayload where
  ID : String
  Typ : Int
  Host : String
  Data : String
  TTL : Int
  GroupID : String
  LineID : String
  Preference : Int
  Weight : Int
  Dominant : Bool
  deriving DecidableEq, Repr

/-- The body of a `POST /api/record` request. -/
structure dnslaCreateRecordPayload where
  DomainId : String
  Typ : Int
  Host : String
  Data : String
  TTL : Int
  GroupID : String
  LineID : String
  Preference : Int
  Weight : Int
  Dominant : Bool
  deriving DecidableEq, Repr

/-- The response `dnslaCreateRecordResponse`. -/
structure dnslaCreateRecordResponse where
  ID : String
  deriving DecidableEq, Repr

/-- The query string of `GET /api/recordList`: `pageIndex`, `pageSize`, `domainId` and,
in `getMatchingRecord` only, `type` and `host`. -/
structure RecordListQuery where
  pageIndex : Int
  pageSize : Int
  domainId : String
  typ : Option Int
  host : Option String
  deriving DecidableEq, Repr

/-- The calls of `MakeApiRequest` that the program makes. -/
inductive Request where
  /-- `GET /api/domain?domain=<d>` -/
  | domain (d : String)
  /-- `GET /api/recordList?pageIndex=..&pageSize=..&domainId=..[&type=..&host=..]` -/
  | recordList (q : RecordListQuery)
  /-- `POST /api/record` -/
  | create (p : dnslaCreateRecordPayload)
  /-- `PUT /api/record` -/
  | update (p : dnslaRecordPayload)
  /-- `DELETE /api/record?id=<id>` -/
  | delete (id : String)
  deriving DecidableEq, Repr

/-- The Go `error` values of the program: an error returned by `MakeApiRequest`, or the
`fmt.Errorf("unexpectedly found more than 1 record for %v", r)` of `SetRecords`. -/
inductive Error where
  | api (msg : String)
  | ambiguous (r : Record)
  deriving DecidableEq, Repr

/-- The remote service behind `MakeApiRequest`: each field receives the requests made
so far and the new request, and answers with an error text or the decoded response. -/
structure Api where
  domain : List Request → String → Except String dnslaDomainResponse
  recordList : List Request → RecordListQuery → Except String dnslaDomainRecordsResponse
  create : List Request → dnslaCreateRecordPayload → Except String dnslaCreateRecordResponse
  update : List Request → dnslaRecordPayload → Except String Unit
  delete : List Request → String → Except String Unit

/-- The library functions used on names and TTLs: `libdns.RelativeName fqdn zone`, and
`time.ParseDuration (fmt.Sprintf "%ds" n)` with its error dropped. -/
structure Lib where
  RelativeName : String → String → String
  secondsDuration : Int → Int

/-- The two return values of an operation, and the requests made up to its return. -/
structure Outcome where
  records : List Record
  err : Option Error
  log : List Request
  deriving DecidableEq, Repr

/-! ## `models.go` -/

/-- The function `dnslaToLibDnsRecordType`. -/
def dnslaToLibDnsRecordType (t : Int) : String :=
  if t = 1 then "A"
  else if t = 2 then "NS"
  else if t = 5 then "CNAME"
  else if t = 15 then "MX"
  else if t = 16 then "TXT"
  else if t = 28 then "AAAA"
  else if t = 33 then "SRV"
  else if t = 257 then "CAA"
  else ""

/-- The function `libDnsToDnslaRecordType`. -/
def libDnsToDnslaRecordType (t : String) : Int :=
  if t = "A" then 1
  else if t = "NS" then 2
  else if t = "CNAME" then 5
  else if t = "MX" then 15
  else if t = "TXT" then 16
  else if t = "AAAA" then 28
  else if t = "SRV" then 33
  else if t = "CAA" then 257
  else 0

/-- The function `libdnsZoneToDnslaDomain`: `strings.TrimSuffix zone "."`. -/
def libdnsZoneToDnslaDomain (zone : String) : String :=
  if zone.data.getLast? = some '.' then String.mk zone.data.dropLast else zone

/-- The method `toLibdnsRecord`. -/
def toLibdnsRecord (lib : Lib) (record : dnslaDomainRecordResponse) (zone : String) : Record :=
  { ID := record.ID
    Name := lib.RelativeName record.Host (libdnsZoneToDnslaDomain zone)
    Priority := record.Weight
    TTL := lib.secondsDuration record.TTL
    Typ := dnslaToLibDnsRecordType record.Typ
    Value := record.Data }

/-! ## `client.go` -/

/-- The query of `getMatchingRecord`; the source builds the same URL for its first and
for its second request. -/
def matchQuery (r : Record) (domainId : String) : RecordListQuery :=
  { pageIndex := 1, pageSize := 10, domainId := domainId
    typ := some (libDnsToDnslaRecordType r.Typ), host := some r.Name }

/-- The method `getMatchingRecord`. -/
def getMatchingRecord (lib : Lib) (api : Api) (log : List Request) (r : Record)
    (domainId zone : String) : Outcome :=
  let q := matchQuery r domainId
  match api.recordList log q with
  | .error e => ⟨[], some (.api e), log ++ [.recordList q]⟩
  | .ok response =>
    let log1 := log ++ [.recordList q]
    if response.Total > 10 then
      match api.recordList log1 q with
      | .error e => ⟨[], some (.api e), log1 ++ [.recordList q]⟩
      | .ok response2 =>
        ⟨response2.Results.map (fun rec => toLibdnsRecord lib rec zone), none,
          log1 ++ [.recordList q]⟩
    else
      ⟨response.Results.map (fun rec => toLibdnsRecord lib rec zone), none, log1⟩

/-- The TTL step at the top of both mutation loops:
`if record.TTL/time.Second < 600 { record.TTL = 600 * time.Second }`. -/
def floorTTL (record : Record) : Record :=
  if record.TTL.tdiv second < 600 then { record with TTL := 600 * second } else record

/-- The request body built by `updateRecords` from the record after the TTL step. -/
def updatePayload (lib : Lib) (zone : String) (record : Record) : dnslaRecordPayload :=
  { ID := record.ID
    Typ := libDnsToDnslaRecordType record.Typ
    Host := lib.RelativeName record.Name zone
    Data := record.Value
    TTL := record.TTL.tdiv second
    GroupID := ""
    LineID := ""
    Preference := 1
    Weight := 1
    Dominant := false }

/-- The loop of `updateRecords`; `createdRecords` is the slice built so far. Every error
return of the source is `return nil, err`. -/
def updateLoop (lib : Lib) (api : Api) (zone : String) :
    List Record → List Record → List Request → Outcome
  | [], createdRecords, log => ⟨createdRecords, none, log⟩
  | record :: rest, createdRecords, log =>
    let record := floorTTL record
    let reqBody := updatePayload lib zone record
    match api.update log reqBody with
    | .error e => ⟨[], some (.api e), log ++ [.update reqBody]⟩
    | .ok _ => updateLoop lib api zone rest (createdRecords ++ [record]) (log ++ [.update reqBody])

/-- The method `updateRecords`. -/
def updateRecords (lib : Lib) (api : Api) (log : List Request) (zone : String)
    (records : List Record) : Outcome :=
  updateLoop lib api zone records [] log

/-! ## `provider.go` -/

/-- The query of the first listing request of `GetRecords`. -/
def firstPage (id : String) : RecordListQuery :=
  { pageIndex := 1, pageSize := 10, domainId := id, typ := none, host := none }

/-- The query of the second listing request of `GetRecords`. -/
def wholePage (total : Int) (id : String) : RecordListQuery :=
  { pageIndex := 1, pageSize := total, domainId := id, typ := none, host := none }

/-- The method `GetRecords`. -/
def GetRecords (lib : Lib) (api : Api) (log : List Request) (zone : String) : Outcome :=
  let trimmedZone := libdnsZoneToDnslaDomain zone
  match api.domain log trimmedZone with
  | .error e => ⟨[], some (.api e), log ++ [.domain trimmedZone]⟩
  | .ok response =>
    let id := response.ID
    let log1 := log ++ [.domain trimmedZone]
    match api.recordList log1 (firstPage id) with
    | .error e => ⟨[], some (.api e), log1 ++ [.recordList (firstPage id)]⟩
    | .ok response2 =>
      let log2 := log1 ++ [.recordList (firstPage id)]
      let total := response2.Total
      if total > 10 then
        match api.recordList log2 (wholePage total id) with
        | .error e => ⟨[], some (.api e), log2 ++ [.recordList (wholePage total id)]⟩
        | .ok response3 =>
          ⟨response3.Results.map (fun rec => toLibdnsRecord lib rec zone), none,
            log2 ++ [.recordList (wholePage total id)]⟩
      else
        ⟨response2.Results.map (fun rec => toLibdnsRecord lib rec zone), none, log2⟩

/-- The request body built by `AppendRecords` from the record after the TTL step. -/
def createPayload (lib : Lib) (id zone : String) (record : Record) :
    dnslaCreateRecordPayload :=
  { DomainId := id
    Typ := libDnsToDnslaRecordType record.Typ
    Host := lib.RelativeName record.Name zone
    Data := record.Value
    TTL := record.TTL.tdiv second
    GroupID := ""
    LineID := ""
    Preference := 1
    Weight := 1
    Dominant := false }

/-- The last step of the loop body of `AppendRecords`:
`if err == nil && len(created) == 1 { record.ID = created[0].ID }`. -/
def adoptID (record : Record) (m : Outcome) : Record :=
  match m.err, m.records with
  | none, [c] => { record with ID := c.ID }
  | _, _ => record

/-- The loop of `AppendRecords`; `createdRecords` is the slice built so far. -/
def appendLoop (lib : Lib) (api : Api) (id zone : String) :
    List Record → List Record → List Request → Outcome
  | [], createdRecords, log => ⟨createdRecords, none, log⟩
  | record :: rest, createdRecords, log =>
    let record := floorTTL record
    let reqBody := createPayload lib id zone record
    match api.create log reqBody with
    | .error e => ⟨createdRecords, some (.api e), log ++ [.create reqBody]⟩
    | .ok _ =>
      let created := getMatchingRecord lib api (log ++ [.create reqBody]) record id zone
      appendLoop lib api id zone rest (createdRecords ++ [adoptID record created]) created.log

/-- The method `AppendRecords`. -/
def AppendRecords (lib : Lib) (api : Api) (log : List Request) (zone : String)
    (records : List Record) : Outcome :=
  let trimmedZone := libdnsZoneToDnslaDomain zone
  match api.domain log trimmedZone with
  | .error e => ⟨[], some (.api e), log ++ [.domain trimmedZone]⟩
  | .ok response =>
    appendLoop lib api response.ID zone records [] (log ++ [.domain trimmedZone])

/-- The state of the first loop of `SetRecords`: the slices `updates` and `creates`. -/
structure Classified where
  updates : List Record
  creates : List Record
  log : List Request
  deriving DecidableEq, Repr

/-- The first loop of `SetRecords`: an error, with the log at that point, or the two
slices. -/
def classifyLoop (lib : Lib) (api : Api) (id zone : String) :
    List Record → Classified → Except (Error × List Request) Classified
  | [], c => .ok c
  | r :: rest, c =>
    if r.ID = "" then
      let m := getMatchingRecord lib api c.log r id zone
      match m.err with
      | some e => .error (e, m.log)
      | none =>
        match m.records with
        | [] => classifyLoop lib api id zone rest { c with creates := c.creates ++ [r], log := m.log }
        | [m0] =>
          classifyLoop lib api id zone rest
            { c with updates := c.updates ++ [{ r with ID := m0.ID }], log := m.log }
        | _ :: _ :: _ => .error (.ambiguous r, m.log)
    else
      classifyLoop lib api id zone rest { c with updates := c.updates ++ [r] }

/-- The method `SetRecords`. -/
def SetRecords (lib : Lib) (api : Api) (log : List Request) (zone : String)
    (records : List Record) : Outcome :=
  let trimmedZone := libdnsZoneToDnslaDomain zone
  match api.domain log trimmedZone with
  | .error e => ⟨[], some (.api e), log ++ [.domain trimmedZone]⟩
  | .ok response =>
    match classifyLoop lib api response.ID zone records ⟨[], [], log ++ [.domain trimmedZone]⟩ with
    | .error (e, log1) => ⟨[], some e, log1⟩
    | .ok c =>
      let created := AppendRecords lib api c.log zone c.creates
      match created.err with
      | some e => ⟨[], some e, created.log⟩
      | none =>
        let updated := updateRecords lib api created.log zone c.updates
        match updated.err with
        | some e => ⟨[], some e, updated.log⟩
        | none => ⟨created.records ++ updated.records, none, updated.log⟩

/-- The inner loop of `DeleteRecords` over `queuedDeletes`. -/
def deleteQueued (api : Api) : List Record → List Record → List Request → Outcome
  | [], deletedRecords, log => ⟨deletedRecords, none, log⟩
  | recordToDelete :: rest, deletedRecords, log =>
    match api.delete log recordToDelete.ID with
    | .error e => ⟨deletedRecords, some (.api e), log ++ [.delete recordToDelete.ID]⟩
    | .ok _ =>
      deleteQueued api rest (deletedRecords ++ [recordToDelete])
        (log ++ [.delete recordToDelete.ID])

/-- The outer loop of `DeleteRecords`. -/
def deleteLoop (lib : Lib) (api : Api) (id zone : String) :
    List Record → List Record → List Request → Outcome
  | [], deletedRecords, log => ⟨deletedRecords, none, log⟩
  | record :: rest, deletedRecords, log =>
    if record.ID = "" then
      let m := getMatchingRecord lib api log record id zone
      match m.err with
      | some e => ⟨deletedRecords, some e, m.log⟩
      | none =>
        let d := deleteQueued api m.records deletedRecords m.log
        match d.err with
        | some e => ⟨d.records, some e, d.log⟩
        | none => deleteLoop lib api id zone rest d.records d.log
    else
      let d := deleteQueued api [record] deletedRecords log
      match d.err with
      | some e => ⟨d.records, some e, d.log⟩
      | none => deleteLoop lib api id zone rest d.records d.log

/-- The method `DeleteRecords`. -/
def DeleteRecords (lib : Lib) (api : Api) (log : List Request) (zone : String)
    (records : List Record) : Outcome :=
  let trimmedZone := libdnsZoneToDnslaDomain zone
  match api.domain log trimmedZone with
  | .error e => ⟨[], some (.api e), log ++ [.domain trimmedZone]⟩
  | .ok response =>
    deleteLoop lib api response.ID zone records [] (log ++ [.domain trimmedZone])

/-! ## Reading the log -/

/-- The bodies of the `POST /api/record` requests of a log, in order. -/
def createsOf (log : List Request) : List dnslaCreateRecordPayload :=
  log.filterMap fun
    | .create p => some p
    | _ => none

/-- The bodies of the `PUT /api/record` requests of a log, in order. -/
def updatesOf (log : List Request) : List dnslaRecordPayload :=
  log.filterMap fun
    | .update p => some p
    | _ => none

/-- The identifiers of the `DELETE /api/record` requests of a log, in order. -/
def deletesOf (log : List Request) : List String :=
  log.filterMap fun
    | .delete id => some id
    | _ => none

/-- The `GET /api/recordList` queries of a log, in order. -/
def listingsOf (log : List Request) : List RecordListQuery :=
  log.filterMap fun
    | .recordList q => some q
    | _ => none

/-- A request that reads: one of the two `GET` requests. -/
def Request.isRead : Request → Bool
  | .domain _ => true
  | .recordList _ => true
  | _ => false

/-- The eight canonical type names. -/
def supportedTypes : List String :=
  ["A", "NS", "CNAME", "MX", "TXT", "AAAA", "SRV", "CAA"]

/-! ## The classification of `SetRecords`, as the specification words it -/

/-- The records of a batch to create, when `view x` is the listing that answers the
lookup of the record `x`: the records without an identifier that have no match, in
input order. -/
def setCreates (view : Record → dnslaDomainRecordsResponse) (records : List Record) :
    List Record :=
  records.filter fun x => decide (x.ID = "" ∧ (view x).Results = [])

/-- The records of a batch to update, when `view x` is the listing that answers the
lookup of the record `x`: the records with an identifier, as they are, and the records
without an identifier that have exactly one match, with the identifier of the match, in
input order. -/
def setUpdates (view : Record → dnslaDomainRecordsResponse) (records : List Record) :
    List Record :=
  records.filterMap fun x =>
    if x.ID ≠ "" then some x
    else
      match (view x).Results with
      | [m] => some { x with ID := m.ID }
      | _ => none

/-! ## A simulated provider -/

/-- The records of a simulated provider that are left after the `DELETE` requests of
the log. -/
def simLive (remote : List dnslaDomainRecordResponse) (log : List Request) :
    List dnslaDomainRecordResponse :=
  remote.filter fun x => decide (x.ID ∉ deletesOf log)

/-- The listing of a simulated provider: the records left that pass the `type` and
`host` filters of the query, counted in `Total`, and the page asked for. -/
def simList (remote : List dnslaDomainRecordResponse) (log : List Request)
    (q : RecordListQuery) : dnslaDomainRecordsResponse :=
  let found := (simLive remote log).filter fun x =>
    decide ((q.typ = none ∨ q.typ = some x.Typ) ∧ (q.host = none ∨ q.host = some x.Host))
  { Total := found.length
    Results := (found.drop ((q.pageIndex - 1) * q.pageSize).toNat).take q.pageSize.toNat }

/-- A simulated provider with one domain, of identifier `"d1"`, holding the records
`remote`: listings are paged, `DELETE` removes a record, and `PUT` and `DELETE` fail on
an identifier that is not held. -/
def simApi (remote : List dnslaDomainRecordResponse) : Api where
  domain := fun _ _ => .ok ⟨"d1"⟩
  recordList := fun log q => .ok (simList remote log q)
  create := fun _ _ => .ok ⟨"new"⟩
  update := fun log p =>
    if p.ID ∈ (simLive remote log).map (fun x => x.ID) then .ok () else .error "no such record"
  delete := fun log id =>
    if id ∈ (simLive remote log).map (fun x => x.ID) then .ok () else .error "no such record"

/-- A simulated provider that accepts every request and whose listings are those of the
records `remote`, whatever has been asked before. -/
def staticApi (remote : List dnslaDomainRecordResponse) : Api where
  domain := fun _ _ => .ok ⟨"d1"⟩
  recordList := fun _ q => .ok (simList remote [] q)
  create := fun _ _ => .ok ⟨"new"⟩
  update := fun _ _ => .ok ()
  delete := fun _ _ => .ok ()

/-- A stand-in for the library functions: names are left as they are, and a TTL of `n`
seconds is `n * second`. -/
def simLib : Lib where
  RelativeName := fun fqdn _ => fqdn
  secondsDuration := fun n => n * second

/-- A remote `TXT` record of host `www` with the given identifier. -/
def txtRecord (id : String) : dnslaDomainRecordResponse :=
  { ID := id, Host := "www", Typ := 16, Data := "v", TTL := 600, Weight := 1 }

/-- Twenty-three remote records with distinct identifiers. -/
def remote23 : List dnslaDomainRecordResponse :=
  ["1", "2", "3", "4", "5", "6", "7", "8", "9", "10", "11", "12", "13", "14", "15", "16",
    "17", "18", "19", "20", "21", "22", "23"].map txtRecord

/-- Eleven remote `TXT` records of host `www`. -/
def remote11 : List dnslaDomainRecordResponse :=
  ["1", "2", "3", "4", "5", "6", "7", "8", "9", "10", "11"].map txtRecord

/-- Two remote `TXT` records of host `www`. -/
def remote2 : List dnslaDomainRecordResponse :=
  ["1", "2"].map txtRecord

/-- One remote `TXT` record of host `www`. -/
def remote1 : List dnslaDomainRecordResponse :=
  ["1"].map txtRecord

/-- A desired `TXT` record for host `www` with the given identifier. -/
def wanted (id : String) : Record :=
  { ID := id, Typ := "TXT", Name := "www", Value := "w", TTL := 600 * second, Priority := 0 }

/-- A desired `TXT` record for host `mail`, without an identifier. -/
def wantedMail : Record :=
  { ID := "", Typ := "TXT", Name := "mail", Value := "w", TTL := 30 * second, Priority := 0 }

/-! ## Lemmas -/

section logs

@[simp] theorem createsOf_append (a b : List Request) :
    createsOf (a ++ b) = createsOf a ++ createsOf b := by
  simp [createsOf, List.filterMap_append]

@[simp] theorem updatesOf_append (a b : List Request) :
    updatesOf (a ++ b) = updatesOf a ++ updatesOf b := by
  simp [updatesOf, List.filterMap_append]

@[simp] theorem deletesOf_append (a b : List Request) :
    deletesOf (a ++ b) = deletesOf a ++ deletesOf b := by
  simp [deletesOf, List.filterMap_append]

@[simp] theorem listingsOf_append (a b : List Request) :
    listingsOf (a ++ b) = listingsOf a ++ listingsOf b := by
  simp [listingsOf, List.filterMap_append]

theorem getMatchingRecord_error (lib : Lib) (api : Api) (log : List Request) (r : Record)
    (id zone : String) (e : String)
    (h : api.recordList log (matchQuery r id) = .error e) :
    getMatchingRecord lib api log r id zone =
      ⟨[], some (.api e), log ++ [.recordList (matchQuery r id)]⟩ := by
  simp [getMatchingRecord, h]

theorem getMatchingRecord_small (lib : Lib) (api : Api) (log : List Request) (r : Record)
    (id zone : String) (resp : dnslaDomainRecordsResponse)
    (h : api.recordList log (matchQuery r id) = .ok resp) (ht : resp.Total ≤ 10) :
    getMatchingRecord lib api log r id zone =
      ⟨resp.Results.map (fun rec => toLibdnsRecord lib rec zone), none,
        log ++ [.recordList (matchQuery r id)]⟩ := by
  have ht' : ¬ 10 < resp.Total := by omega
  simp [getMatchingRecord, h, ht']

theorem getMatchingRecord_big_error (lib : Lib) (api : Api) (log : List Request) (r : Record)
    (id zone : String) (resp : dnslaDomainRecordsResponse) (e : String)
    (h : api.recordList log (matchQuery r id) = .ok resp) (ht : 10 < resp.Total)
    (h2 : api.recordList (log ++ [.recordList (matchQuery r id)]) (matchQuery r id) = .error e) :
    getMatchingRecord lib api log r id zone =
      ⟨[], some (.api e),
        log ++ [.recordList (matchQuery r id), .recordList (matchQuery r id)]⟩ := by
  simp [getMatchingRecord, h, ht, h2]

theorem getMatchingRecord_big_ok (lib : Lib) (api : Api) (log : List Request) (r : Record)
    (id zone : String) (resp resp2 : dnslaDomainRecordsResponse)
    (h : api.recordList log (matchQuery r id) = .ok resp) (ht : 10 < resp.Total)
    (h2 : api.recordList (log ++ [.recordList (matchQuery r id)]) (matchQuery r id) = .ok resp2) :
    getMatchingRecord lib api log r id zone =
      ⟨resp2.Results.map (fun rec => toLibdnsRecord lib rec zone), none,
        log ++ [.recordList (matchQuery r id), .recordList (matchQuery r id)]⟩ := by
  simp [getMatchingRecord, h, ht, h2]

/-- The log of `getMatchingRecord`: the old log and one or two copies of the same
listing request. -/
theorem getMatchingRecord_log (lib : Lib) (api : Api) (log : List Request) (r : Record)
    (id zone : String) :
    ∃ n, 1 ≤ n ∧ n ≤ 2 ∧ (getMatchingRecord lib api log r id zone).log =
      log ++ List.replicate n (Request.recordList (matchQuery r id)) := by
  cases h1 : api.recordList log (matchQuery r id) with
  | error e => exact ⟨1, by simp [getMatchingRecord_error lib api log r id zone e h1]⟩
  | ok resp =>
    by_cases ht : 10 < resp.Total
    · cases h2 : api.recordList (log ++ [Request.recordList (matchQuery r id)])
          (matchQuery r id) with
      | error e =>
        exact ⟨2, by
          simp [getMatchingRecord_big_error lib api log r id zone resp e h1 ht h2,
            List.replicate]⟩
      | ok resp2 =>
        exact ⟨2, by
          simp [getMatchingRecord_big_ok lib api log r id zone resp resp2 h1 ht h2,
            List.replicate]⟩
    · exact ⟨1, by
        simp [getMatchingRecord_small lib api log r id zone resp h1 (by omega)]⟩

/-- A lookup adds only listing requests to the log. -/
theorem getMatchingRecord_reads (lib : Lib) (api : Api) (log : List Request) (r : Record)
    (id zone : String) :
    ∃ extra, (getMatchingRecord lib api log r id zone).log = log ++ extra ∧
      createsOf extra = [] ∧ updatesOf extra = [] ∧ deletesOf extra = [] ∧
      (∀ q ∈ extra, q.isRead = true) := by
  obtain ⟨n, -, -, hn⟩ := getMatchingRecord_log lib api log r id zone
  refine ⟨_, hn, ?_, ?_, ?_, ?_⟩
  · simp [createsOf, List.filterMap_replicate_of_none]
  · simp [updatesOf, List.filterMap_replicate_of_none]
  · simp [deletesOf, List.filterMap_replicate_of_none]
  · intro q hq
    rw [List.eq_of_mem_replicate hq]
    rfl

end logs

section append

theorem appendLoop_nil (lib : Lib) (api : Api) (id zone : String) (created : List Record)
    (log : List Request) :
    appendLoop lib api id zone [] created log = ⟨created, none, log⟩ := rfl

theorem appendLoop_cons_error (lib : Lib) (api : Api) (id zone : String) (r : Record)
    (rest created : List Record) (log : List Request) (e : String)
    (h : api.create log (createPayload lib id zone (floorTTL r)) = .error e) :
    appendLoop lib api id zone (r :: rest) created log =
      ⟨created, some (.api e), log ++ [.create (createPayload lib id zone (floorTTL r))]⟩ := by
  simp [appendLoop, h]

theorem appendLoop_cons_ok (lib : Lib) (api : Api) (id zone : String) (r : Record)
    (rest created : List Record) (log : List Request) (resp : dnslaCreateRecordResponse)
    (h : api.create log (createPayload lib id zone (floorTTL r)) = .ok resp) :
    appendLoop lib api id zone (r :: rest) created log =
      appendLoop lib api id zone rest
        (created ++ [adoptID (floorTTL r)
          (getMatchingRecord lib api
            (log ++ [.create (createPayload lib id zone (floorTTL r))]) (floorTTL r) id zone)])
        (getMatchingRecord lib api
            (log ++ [.create (createPayload lib id zone (floorTTL r))]) (floorTTL r) id zone).log := by
  simp [appendLoop, h]

/-- Running the loop of `AppendRecords` over `xs ++ ys` is running it over `xs` and, when
that ends without an error, over `ys` from the state reached. -/
theorem appendLoop_append (lib : Lib) (api : Api) (id zone : String) (ys : List Record) :
    ∀ (xs created : List Record) (log : List Request),
      appendLoop lib api id zone (xs ++ ys) created log =
        if (appendLoop lib api id zone xs created log).err = none then
          appendLoop lib api id zone ys (appendLoop lib api id zone xs created log).records
            (appendLoop lib api id zone xs created log).log
        else appendLoop lib api id zone xs created log := by
  intro xs
  induction xs with
  | nil => intro created log; simp [appendLoop_nil]
  | cons r rest ih =>
    intro created log
    cases h : api.create log (createPayload lib id zone (floorTTL r)) with
    | error e =>
      rw [List.cons_append, appendLoop_cons_error lib api id zone r _ created log e h,
        appendLoop_cons_error lib api id zone r _ created log e h]
      simp
    | ok resp =>
      rw [List.cons_append, appendLoop_cons_ok lib api id zone r _ created log resp h,
        appendLoop_cons_ok lib api id zone r _ created log resp h]
      exact ih _ _

/-- What the loop of `AppendRecords` adds to the log and to the result. -/
theorem appendLoop_trace (lib : Lib) (api : Api) (id zone : String) :
    ∀ (records created : List Record) (log : List Request),
      ∃ (extra : List Request) (n : Nat) (added : List Record),
        (appendLoop lib api id zone records created log).log = log ++ extra ∧
        (appendLoop lib api id zone records created log).records = created ++ added ∧
        n ≤ records.length ∧ added.length ≤ n ∧
        createsOf extra =
          ((records.take n).map fun r => createPayload lib id zone (floorTTL r)) ∧
        updatesOf extra = [] ∧ deletesOf extra = [] ∧
        ((appendLoop lib api id zone records created log).err = none →
          added.length = records.length) := by
  intro records
  induction records with
  | nil =>
    intro created log
    exact ⟨[], 0, [], by simp [appendLoop_nil], by simp [appendLoop_nil], by simp, by simp,
      by simp [createsOf], rfl, rfl, fun _ => rfl⟩
  | cons r rest ih =>
    intro created log
    cases h : api.create log (createPayload lib id zone (floorTTL r)) with
    | error e =>
      rw [appendLoop_cons_error lib api id zone r _ created log e h]
      exact ⟨_, 1, [], rfl, by simp, by simp, by simp, by simp [createsOf], rfl, rfl,
        by simp⟩
    | ok resp =>
      rw [appendLoop_cons_ok lib api id zone r _ created log resp h]
      obtain ⟨ex1, hl1, hc1, hu1, hd1, -⟩ := getMatchingRecord_reads lib api
        (log ++ [.create (createPayload lib id zone (floorTTL r))]) (floorTTL r) id zone
      generalize getMatchingRecord lib api
        (log ++ [.create (createPayload lib id zone (floorTTL r))]) (floorTTL r) id zone = m
        at hl1 ⊢
      obtain ⟨extra, n, added, hl, hr, hk, ha, hc, hu, hd, he⟩ := ih
        (created ++ [adoptID (floorTTL r) m]) m.log
      refine ⟨[.create (createPayload lib id zone (floorTTL r))] ++ ex1 ++ extra, n + 1,
        adoptID (floorTTL r) m :: added, ?_, ?_, ?_, ?_, ?_, ?_, ?_, ?_⟩
      · rw [hl, hl1]; simp
      · rw [hr]; simp
      · simp; omega
      · simp; omega
      · simp only [createsOf_append, hc1, hc, List.append_nil]
        simp [createsOf]
      · simp only [updatesOf_append, hu1, hu, List.append_nil]; rfl
      · simp only [deletesOf_append, hd1, hd, List.append_nil]; rfl
      · intro h0; simp [he h0]

theorem AppendRecords_domain_error (lib : Lib) (api : Api) (log : List Request)
    (zone : String) (records : List Record) (e : String)
    (h : api.domain log (libdnsZoneToDnslaDomain zone) = .error e) :
    AppendRecords lib api log zone records =
      ⟨[], some (.api e), log ++ [.domain (libdnsZoneToDnslaDomain zone)]⟩ := by
  simp [AppendRecords, h]

theorem AppendRecords_domain_ok (lib : Lib) (api : Api) (log : List Request)
    (zone : String) (records : List Record) (d : dnslaDomainResponse)
    (h : api.domain log (libdnsZoneToDnslaDomain zone) = .ok d) :
    AppendRecords lib api log zone records =
      appendLoop lib api d.ID zone records [] (log ++ [.domain (libdnsZoneToDnslaDomain zone)]) := by
  simp [AppendRecords, h]

/-- After a run of `AppendRecords` over `done` without an error, the run over
`done ++ ys` continues with `ys` from the result and the log of the first run. -/
theorem AppendRecords_append (lib : Lib) (api : Api) (log : List Request) (zone : String)
    (d : dnslaDomainResponse) (done ys : List Record)
    (hd : api.domain log (libdnsZoneToDnslaDomain zone) = .ok d)
    (h : (AppendRecords lib api log zone done).err = none) :
    AppendRecords lib api log zone (done ++ ys) =
      appendLoop lib api d.ID zone ys (AppendRecords lib api log zone done).records
        (AppendRecords lib api log zone done).log := by
  rw [AppendRecords_domain_ok lib api log zone _ d hd] at h ⊢
  rw [AppendRecords_domain_ok lib api log zone _ d hd, appendLoop_append, if_pos h]

theorem adoptID_fields (r : Record) (m : Outcome) :
    (adoptID r m).Typ = r.Typ ∧ (adoptID r m).Name = r.Name ∧ (adoptID r m).Value = r.Value ∧
      (adoptID r m).Priority = r.Priority ∧ (adoptID r m).TTL = r.TTL := by
  unfold adoptID
  split <;> simp

theorem adoptID_one (r : Record) (m : Outcome) (c : Record) (he : m.err = none)
    (hr : m.records = [c]) : adoptID r m = { r with ID := c.ID } := by
  rcases m with ⟨mr, me, ml⟩
  simp only at he hr
  subst he hr
  rfl

theorem adoptID_other (r : Record) (m : Outcome) (h : m.err ≠ none ∨ m.records.length ≠ 1) :
    adoptID r m = r := by
  rcases m with ⟨mr, me, ml⟩
  unfold adoptID
  split
  · rename_i he hr
    simp only at he hr
    simp [he, hr] at h
  · rfl

theorem floorTTL_fields (r : Record) :
    (floorTTL r).ID = r.ID ∧ (floorTTL r).Typ = r.Typ ∧ (floorTTL r).Name = r.Name ∧
      (floorTTL r).Value = r.Value ∧ (floorTTL r).Priority = r.Priority := by
  unfold floorTTL
  split <;> simp

/-- A run of the loop of `AppendRecords` without an error adds one record per input
record, in input order, equal to the input record but for its identifier and TTL. -/
theorem appendLoop_result (lib : Lib) (api : Api) (id zone : String) :
    ∀ (records created : List Record) (log : List Request),
      (appendLoop lib api id zone records created log).err = none →
      ∃ added, (appendLoop lib api id zone records created log).records = created ++ added ∧
        List.Forall₂ (fun out inp => out.Typ = inp.Typ ∧ out.Name = inp.Name ∧
          out.Value = inp.Value ∧ out.Priority = inp.Priority ∧
          out.TTL = (floorTTL inp).TTL) added records := by
  intro records
  induction records with
  | nil => intro created log _; exact ⟨[], by simp [appendLoop_nil], List.Forall₂.nil⟩
  | cons r rest ih =>
    intro created log
    cases h : api.create log (createPayload lib id zone (floorTTL r)) with
    | error e => rw [appendLoop_cons_error lib api id zone r _ created log e h]; simp
    | ok resp =>
      rw [appendLoop_cons_ok lib api id zone r _ created log resp h]
      intro h0
      obtain ⟨added, hr, hf⟩ := ih _ _ h0
      refine ⟨adoptID (floorTTL r)
        (getMatchingRecord lib api
          (log ++ [.create (createPayload lib id zone (floorTTL r))]) (floorTTL r) id zone) ::
          added, by rw [hr]; simp, List.Forall₂.cons ?_ hf⟩
      obtain ⟨a1, a2, a3, a4, a5⟩ := adoptID_fields (floorTTL r)
        (getMatchingRecord lib api
          (log ++ [.create (createPayload lib id zone (floorTTL r))]) (floorTTL r) id zone)
      obtain ⟨-, f2, f3, f4, f5⟩ := floorTTL_fields r
      exact ⟨a1.trans f2, a2.trans f3, a3.trans f4, a4.trans f5, a5⟩

end append

section ttl

theorem tdiv_second_lt (t : Int) : t.tdiv second < 600 ↔ t < 600 * second := by
  unfold second
  rcases Int.le_total 0 t with h | h
  · rw [Int.tdiv_eq_ediv h (by norm_num)]; omega
  · have h0 : (0 : Int) ≤ -t := by omega
    have h1 : t.tdiv 1000000000 = -((-t).tdiv 1000000000) := by
      rw [Int.neg_tdiv]; simp
    have h2 : (0 : Int) ≤ (-t).tdiv 1000000000 := by
      rw [Int.tdiv_eq_ediv h0 (by norm_num)]; omega
    omega

/-- The seconds sent for a record with TTL `t`. -/
theorem floorTTL_seconds (r : Record) :
    (floorTTL r).TTL.tdiv second = (if r.TTL < 600 * second then 600 else r.TTL.tdiv second)
      ∧ 600 ≤ (floorTTL r).TTL.tdiv second := by
  unfold floorTTL
  by_cases h : r.TTL.tdiv second < 600
  · have h' := (tdiv_second_lt r.TTL).1 h
    have : (600 * second).tdiv second = 600 := by unfold second; decide
    simp [h, h', this]
  · have h' : ¬ r.TTL < 600 * second := fun c => h ((tdiv_second_lt r.TTL).2 c)
    simp only [h, h', if_false]
    exact ⟨trivial, by omega⟩

end ttl

section update

theorem updateLoop_cons_error (lib : Lib) (api : Api) (zone : String) (r : Record)
    (rest created : List Record) (log : List Request) (e : String)
    (h : api.update log (updatePayload lib zone (floorTTL r)) = .error e) :
    updateLoop lib api zone (r :: rest) created log =
      ⟨[], some (.api e), log ++ [.update (updatePayload lib zone (floorTTL r))]⟩ := by
  simp [updateLoop, h]

theorem updateLoop_cons_ok (lib : Lib) (api : Api) (zone : String) (r : Record)
    (rest created : List Record) (log : List Request) (u : Unit)
    (h : api.update log (updatePayload lib zone (floorTTL r)) = .ok u) :
    updateLoop lib api zone (r :: rest) created log =
      updateLoop lib api zone rest (created ++ [floorTTL r])
        (log ++ [.update (updatePayload lib zone (floorTTL r))]) := by
  simp [updateLoop, h]

/-- What the loop of `updateRecords` adds to the log, and what it returns. -/
theorem updateLoop_trace (lib : Lib) (api : Api) (zone : String) :
    ∀ (records created : List Record) (log : List Request),
      ∃ n, n ≤ records.length ∧
        (updateLoop lib api zone records created log).log =
          log ++ ((records.take n).map fun r => .update (updatePayload lib zone (floorTTL r))) ∧
        ((updateLoop lib api zone records created log).err = none →
          n = records.length ∧
          (updateLoop lib api zone records created log).records =
            created ++ records.map floorTTL) ∧
        ((updateLoop lib api zone records created log).err ≠ none →
          (updateLoop lib api zone records created log).records = []) := by
  intro records
  induction records with
  | nil =>
    intro created log
    exact ⟨0, by simp, by simp [updateLoop], by simp [updateLoop], by simp [updateLoop]⟩
  | cons r rest ih =>
    intro created log
    cases h : api.update log (updatePayload lib zone (floorTTL r)) with
    | error e =>
      rw [updateLoop_cons_error lib api zone r _ created log e h]
      exact ⟨1, by simp, by simp, by simp, by simp⟩
    | ok u =>
      rw [updateLoop_cons_ok lib api zone r _ created log u h]
      obtain ⟨n, hn, hl, hok, herr⟩ := ih (created ++ [floorTTL r])
        (log ++ [.update (updatePayload lib zone (floorTTL r))])
      refine ⟨n + 1, by simp; omega, by rw [hl]; simp, ?_, herr⟩
      intro h0
      obtain ⟨h1, h2⟩ := hok h0
      exact ⟨by simp [h1], by rw [h2]; simp⟩

/-- Running the loop of `updateRecords` over `xs ++ ys` is running it over `xs` and, when
that ends without an error, over `ys` from the state reached. -/
theorem updateLoop_append (lib : Lib) (api : Api) (zone : String) (ys : List Record) :
    ∀ (xs created : List Record) (log : List Request),
      updateLoop lib api zone (xs ++ ys) created log =
        if (updateLoop lib api zone xs created log).err = none then
          updateLoop lib api zone ys (updateLoop lib api zone xs created log).records
            (updateLoop lib api zone xs created log).log
        else updateLoop lib api zone xs created log := by
  intro xs
  induction xs with
  | nil => intro created log; simp [updateLoop]
  | cons r rest ih =>
    intro created log
    cases h : api.update log (updatePayload lib zone (floorTTL r)) with
    | error e =>
      rw [List.cons_append, updateLoop_cons_error lib api zone r _ created log e h,
        updateLoop_cons_error lib api zone r _ created log e h]
      simp
    | ok u =>
      rw [List.cons_append, updateLoop_cons_ok lib api zone r _ created log u h,
        updateLoop_cons_ok lib api zone r _ created log u h]
      exact ih _ _

end update

section set

theorem reads_no_mutation (ext : List Request) (h : ∀ q ∈ ext, q.isRead = true) :
    createsOf ext = [] ∧ updatesOf ext = [] ∧ deletesOf ext = [] := by
  refine ⟨?_, ?_, ?_⟩
  all_goals
    simp only [createsOf, updatesOf, deletesOf]
    rw [List.filterMap_eq_nil_iff]
    intro q hq
    have := h q hq
    cases q <;> simp_all [Request.isRead]

/-- A lookup against a provider whose answer to the query of `x` is `view x` as long as
only reads are made. -/
theorem getMatchingRecord_view (lib : Lib) (api : Api) (log : List Request) (id zone : String)
    (view : Record → dnslaDomainRecordsResponse) (x : Record) (ext : List Request)
    (hext : ∀ q ∈ ext, q.isRead = true)
    (hview : ∀ ext : List Request, (∀ q ∈ ext, q.isRead = true) →
      api.recordList (log ++ ext) (matchQuery x id) = .ok (view x)) :
    ∃ ext1, (∀ q ∈ ext1, q.isRead = true) ∧
      getMatchingRecord lib api (log ++ ext) x id zone =
        ⟨(view x).Results.map (fun rec => toLibdnsRecord lib rec zone), none, log ++ ext1⟩ := by
  have h1 := hview ext hext
  have hext2 : ∀ q ∈ ext ++ [Request.recordList (matchQuery x id)], q.isRead = true := by
    intro q hq
    rcases List.mem_append.1 hq with hq | hq
    · exact hext q hq
    · simp at hq; subst hq; rfl
  by_cases ht : 10 < (view x).Total
  · have h2 := hview _ hext2
    rw [← List.append_assoc] at h2
    refine ⟨ext ++ [.recordList (matchQuery x id), .recordList (matchQuery x id)], ?_, ?_⟩
    · intro q hq
      rcases List.mem_append.1 hq with hq | hq
      · exact hext q hq
      · simp at hq; subst hq; rfl
    · rw [getMatchingRecord_big_ok lib api _ x id zone _ _ h1 ht h2]
      simp
  · refine ⟨ext ++ [.recordList (matchQuery x id)], hext2, ?_⟩
    rw [getMatchingRecord_small lib api _ x id zone _ h1 (by omega)]
    simp

theorem classifyLoop_cons_id (lib : Lib) (api : Api) (id zone : String) (r : Record)
    (rest : List Record) (c : Classified) (hid : r.ID ≠ "") :
    classifyLoop lib api id zone (r :: rest) c =
      classifyLoop lib api id zone rest { c with updates := c.updates ++ [r] } := by
  rw [classifyLoop, if_neg hid]

theorem classifyLoop_cons_error (lib : Lib) (api : Api) (id zone : String) (r : Record)
    (rest : List Record) (c : Classified) (found : List Record) (e : Error)
    (log1 : List Request) (hid : r.ID = "")
    (hm : getMatchingRecord lib api c.log r id zone = ⟨found, some e, log1⟩) :
    classifyLoop lib api id zone (r :: rest) c = .error (e, log1) := by
  rw [classifyLoop, if_pos hid]
  simp [hm]

theorem classifyLoop_cons_none (lib : Lib) (api : Api) (id zone : String) (r : Record)
    (rest : List Record) (c : Classified) (log1 : List Request) (hid : r.ID = "")
    (hm : getMatchingRecord lib api c.log r id zone = ⟨[], none, log1⟩) :
    classifyLoop lib api id zone (r :: rest) c =
      classifyLoop lib api id zone rest { c with creates := c.creates ++ [r], log := log1 } := by
  rw [classifyLoop, if_pos hid]
  simp [hm]

theorem classifyLoop_cons_one (lib : Lib) (api : Api) (id zone : String) (r : Record)
    (rest : List Record) (c : Classified) (m0 : Record) (log1 : List Request)
    (hid : r.ID = "")
    (hm : getMatchingRecord lib api c.log r id zone = ⟨[m0], none, log1⟩) :
    classifyLoop lib api id zone (r :: rest) c =
      classifyLoop lib api id zone rest
        { c with updates := c.updates ++ [{ r with ID := m0.ID }], log := log1 } := by
  rw [classifyLoop, if_pos hid]
  simp [hm]

theorem classifyLoop_cons_many (lib : Lib) (api : Api) (id zone : String) (r : Record)
    (rest : List Record) (c : Classified) (m0 m1 : Record) (more : List Record)
    (log1 : List Request) (hid : r.ID = "")
    (hm : getMatchingRecord lib api c.log r id zone = ⟨m0 :: m1 :: more, none, log1⟩) :
    classifyLoop lib api id zone (r :: rest) c = .error (.ambiguous r, log1) := by
  rw [classifyLoop, if_pos hid]
  simp [hm]

/-- The first loop of `SetRecords` over records none of which is ambiguous, against a
provider whose answer to the lookup of `x` is `view x` as long as only reads are made. -/
theorem classifyLoop_view (lib : Lib) (api : Api) (log : List Request) (id zone : String)
    (view : Record → dnslaDomainRecordsResponse) :
    ∀ (records : List Record) (c : Classified) (ext : List Request),
      c.log = log ++ ext → (∀ q ∈ ext, q.isRead = true) →
      (∀ ext : List Request, (∀ q ∈ ext, q.isRead = true) → ∀ x ∈ records, x.ID = "" →
        api.recordList (log ++ ext) (matchQuery x id) = .ok (view x)) →
      (∀ x ∈ records, x.ID = "" → (view x).Results.length ≤ 1) →
      ∃ ext1, (∀ q ∈ ext1, q.isRead = true) ∧
        classifyLoop lib api id zone records c =
          .ok ⟨c.updates ++ setUpdates view records, c.creates ++ setCreates view records,
            log ++ ext1⟩ := by
  intro records
  induction records with
  | nil =>
    intro c ext hc hext _ _
    refine ⟨ext, hext, ?_⟩
    rcases c with ⟨cu, cc, cl⟩
    simp only at hc
    simp [classifyLoop, setUpdates, setCreates, hc]
  | cons r rest ih =>
    intro c ext hc hext hview hamb
    have hview' : ∀ ext : List Request, (∀ q ∈ ext, q.isRead = true) → ∀ x ∈ rest, x.ID = "" →
        api.recordList (log ++ ext) (matchQuery x id) = .ok (view x) :=
      fun ext he x hx => hview ext he x (List.mem_cons_of_mem _ hx)
    have hamb' : ∀ x ∈ rest, x.ID = "" → (view x).Results.length ≤ 1 :=
      fun x hx => hamb x (List.mem_cons_of_mem _ hx)
    by_cases hid : r.ID = ""
    · obtain ⟨ext1, hext1, hm⟩ := getMatchingRecord_view lib api log id zone view r ext hext
        (fun e he => hview e he r (List.mem_cons_self _ _) hid)
      rw [← hc] at hm
      have hlen := hamb r (List.mem_cons_self _ _) hid
      cases hres : (view r).Results with
      | nil =>
        rw [hres] at hm
        rw [classifyLoop_cons_none lib api id zone r rest c _ hid hm]
        obtain ⟨ext2, hext2, h2⟩ := ih { c with creates := c.creates ++ [r], log := log ++ ext1 }
          ext1 rfl hext1 hview' hamb'
        refine ⟨ext2, hext2, ?_⟩
        rw [h2]
        simp [setUpdates, setCreates, hid, hres]
      | cons a t =>
        cases t with
        | nil =>
          rw [hres] at hm
          rw [classifyLoop_cons_one lib api id zone r rest c _ _ hid hm]
          obtain ⟨ext2, hext2, h2⟩ := ih
            { c with updates := c.updates ++ [{ r with ID := (toLibdnsRecord lib a zone).ID }],
                     log := log ++ ext1 }
            ext1 rfl hext1 hview' hamb'
          refine ⟨ext2, hext2, ?_⟩
          rw [h2]
          simp [setUpdates, setCreates, hid, hres, toLibdnsRecord]
        | cons b t => rw [hres] at hlen; simp at hlen
    · rw [classifyLoop_cons_id lib api id zone r rest c hid]
      obtain ⟨ext2, hext2, h2⟩ := ih { c with updates := c.updates ++ [r] } ext hc hext
        hview' hamb'
      refine ⟨ext2, hext2, ?_⟩
      rw [h2]
      simp [setUpdates, setCreates, hid]


/-- Running the first loop of `SetRecords` over `xs ++ ys` is running it over `xs` and,
when that ends without an error, over `ys` from the state reached. -/
theorem classifyLoop_append (lib : Lib) (api : Api) (id zone : String) (ys : List Record) :
    ∀ (xs : List Record) (c : Classified),
      classifyLoop lib api id zone (xs ++ ys) c =
        match classifyLoop lib api id zone xs c with
        | .ok c1 => classifyLoop lib api id zone ys c1
        | .error e => .error e := by
  intro xs
  induction xs with
  | nil => intro c; simp [classifyLoop]
  | cons r rest ih =>
    intro c
    rw [List.cons_append]
    by_cases hid : r.ID = ""
    · generalize hm : getMatchingRecord lib api c.log r id zone = m
      rcases m with ⟨found, me, log1⟩
      cases me with
      | some e =>
        rw [classifyLoop_cons_error lib api id zone r _ c found e log1 hid hm,
          classifyLoop_cons_error lib api id zone r _ c found e log1 hid hm]
      | none =>
        match found, hm with
        | [], hm =>
          rw [classifyLoop_cons_none lib api id zone r _ c log1 hid hm,
            classifyLoop_cons_none lib api id zone r _ c log1 hid hm]
          exact ih _
        | [m0], hm =>
          rw [classifyLoop_cons_one lib api id zone r _ c m0 log1 hid hm,
            classifyLoop_cons_one lib api id zone r _ c m0 log1 hid hm]
          exact ih _
        | m0 :: m1 :: more, hm =>
          rw [classifyLoop_cons_many lib api id zone r _ c m0 m1 more log1 hid hm,
            classifyLoop_cons_many lib api id zone r _ c m0 m1 more log1 hid hm]
    · rw [classifyLoop_cons_id lib api id zone r _ c hid,
        classifyLoop_cons_id lib api id zone r _ c hid]
      exact ih _

/-- The first loop of `SetRecords` stops at the first ambiguous record, having made only
reads. -/
theorem classifyLoop_ambiguous (lib : Lib) (api : Api) (log : List Request) (id zone : String)
    (view : Record → dnslaDomainRecordsResponse) (done : List Record) (r : Record)
    (rest : List Record) (c : Classified) (ext : List Request)
    (hc : c.log = log ++ ext) (hext : ∀ q ∈ ext, q.isRead = true)
    (hview : ∀ ext : List Request, (∀ q ∈ ext, q.isRead = true) → ∀ x ∈ done ++ [r],
      x.ID = "" → api.recordList (log ++ ext) (matchQuery x id) = .ok (view x))
    (hdone : ∀ x ∈ done, x.ID = "" → (view x).Results.length ≤ 1)
    (hid : r.ID = "") (hamb : 2 ≤ (view r).Results.length) :
    ∃ ext1, (∀ q ∈ ext1, q.isRead = true) ∧
      classifyLoop lib api id zone (done ++ r :: rest) c = .error (.ambiguous r, log ++ ext1) := by
  obtain ⟨ext1, hext1, h1⟩ := classifyLoop_view lib api log id zone view done c ext hc hext
    (fun e he x hx => hview e he x (List.mem_append_left _ hx)) hdone
  obtain ⟨ext2, hext2, hm⟩ := getMatchingRecord_view lib api log id zone view r ext1 hext1
    (fun e he => hview e he r (by simp) hid)
  rw [classifyLoop_append, h1]
  refine ⟨ext2, hext2, ?_⟩
  simp only
  cases hres : (view r).Results with
  | nil => rw [hres] at hamb; simp at hamb
  | cons a t =>
    cases t with
    | nil => rw [hres] at hamb; simp at hamb
    | cons b t =>
      rw [hres] at hm
      exact classifyLoop_cons_many lib api id zone r rest _ _ _ _ _ hid hm

/-- The loop of `AppendRecords` against a provider that accepts every create request. -/
theorem appendLoop_ok (lib : Lib) (api : Api) (id zone : String)
    (hcreate : ∀ lg p, ∃ c, api.create lg p = .ok c) :
    ∀ (records created : List Record) (log : List Request),
      (appendLoop lib api id zone records created log).err = none := by
  intro records
  induction records with
  | nil => intro created log; rfl
  | cons r rest ih =>
    intro created log
    obtain ⟨c, hc⟩ := hcreate log (createPayload lib id zone (floorTTL r))
    rw [appendLoop_cons_ok lib api id zone r rest created log c hc]
    exact ih _ _

/-- The loop of `updateRecords` against a provider that accepts every update request. -/
theorem updateLoop_ok (lib : Lib) (api : Api) (zone : String)
    (hupdate : ∀ lg p, api.update lg p = .ok ()) :
    ∀ (records created : List Record) (log : List Request),
      (updateLoop lib api zone records created log).err = none := by
  intro records
  induction records with
  | nil => intro created log; rfl
  | cons r rest ih =>
    intro created log
    rw [updateLoop_cons_ok lib api zone r rest created log () (hupdate _ _)]
    exact ih _ _

/-- Without an ambiguous record, every record is put in one of the two slices. -/
theorem set_partition_length (view : Record → dnslaDomainRecordsResponse) :
    ∀ records : List Record,
      (∀ x ∈ records, x.ID = "" → (view x).Results.length ≤ 1) →
      (setCreates view records).length + (setUpdates view records).length = records.length := by
  intro records
  induction records with
  | nil => intro _; rfl
  | cons r rest ih =>
    intro h
    have ih' := ih fun x hx => h x (List.mem_cons_of_mem _ hx)
    have hr := h r (List.mem_cons_self _ _)
    by_cases hid : r.ID = ""
    · cases hres : (view r).Results with
      | nil =>
        have e1 : setCreates view (r :: rest) = r :: setCreates view rest := by
          simp [setCreates, hid, hres]
        have e2 : setUpdates view (r :: rest) = setUpdates view rest := by
          simp [setUpdates, hid, hres]
        rw [e1, e2]; simp; omega
      | cons a t =>
        cases t with
        | nil =>
          have e1 : setCreates view (r :: rest) = setCreates view rest := by
            simp [setCreates, hid, hres]
          have e2 : setUpdates view (r :: rest) =
              { r with ID := a.ID } :: setUpdates view rest := by
            simp [setUpdates, hid, hres]
          rw [e1, e2]; simp; omega
        | cons b t => have := hr hid; rw [hres] at this; simp at this
    · have e1 : setCreates view (r :: rest) = setCreates view rest := by
        simp [setCreates, hid]
      have e2 : setUpdates view (r :: rest) = r :: setUpdates view rest := by
        simp [setUpdates, hid]
      rw [e1, e2]; simp; omega

theorem SetRecords_domain_error (lib : Lib) (api : Api) (log : List Request)
    (zone : String) (records : List Record) (e : String)
    (h : api.domain log (libdnsZoneToDnslaDomain zone) = .error e) :
    SetRecords lib api log zone records =
      ⟨[], some (.api e), log ++ [.domain (libdnsZoneToDnslaDomain zone)]⟩ := by
  simp [SetRecords, h]

theorem SetRecords_classify_error (lib : Lib) (api : Api) (log : List Request)
    (zone : String) (records : List Record) (d : dnslaDomainResponse) (e : Error)
    (log1 : List Request)
    (h : api.domain log (libdnsZoneToDnslaDomain zone) = .ok d)
    (hc : classifyLoop lib api d.ID zone records
      ⟨[], [], log ++ [.domain (libdnsZoneToDnslaDomain zone)]⟩ = .error (e, log1)) :
    SetRecords lib api log zone records = ⟨[], some e, log1⟩ := by
  simp [SetRecords, h, hc]

theorem SetRecords_classify_ok (lib : Lib) (api : Api) (log : List Request)
    (zone : String) (records : List Record) (d : dnslaDomainResponse) (c : Classified)
    (h : api.domain log (libdnsZoneToDnslaDomain zone) = .ok d)
    (hc : classifyLoop lib api d.ID zone records
      ⟨[], [], log ++ [.domain (libdnsZoneToDnslaDomain zone)]⟩ = .ok c) :
    SetRecords lib api log zone records =
      if (AppendRecords lib api c.log zone c.creates).err = none then
        if (updateRecords lib api (AppendRecords lib api c.log zone c.creates).log zone
            c.updates).err = none then
          ⟨(AppendRecords lib api c.log zone c.creates).records ++
              (updateRecords lib api (AppendRecords lib api c.log zone c.creates).log zone
                c.updates).records, none,
            (updateRecords lib api (AppendRecords lib api c.log zone c.creates).log zone
              c.updates).log⟩
        else
          ⟨[], (updateRecords lib api (AppendRecords lib api c.log zone c.creates).log zone
              c.updates).err,
            (updateRecords lib api (AppendRecords lib api c.log zone c.creates).log zone
              c.updates).log⟩
      else
        ⟨[], (AppendRecords lib api c.log zone c.creates).err,
          (AppendRecords lib api c.log zone c.creates).log⟩ := by
  simp only [SetRecords, h, hc]
  generalize AppendRecords lib api c.log zone c.creates = a
  rcases a with ⟨ar, ae, al⟩
  cases ae with
  | some e => simp
  | none =>
    simp only [if_true]
    generalize updateRecords lib api al zone c.updates = u
    rcases u with ⟨ur, ue, ul⟩
    cases ue <;> simp

/-- Every error return of `SetRecords` has an empty result. -/
theorem SetRecords_error_empty (lib : Lib) (api : Api) (log : List Request)
    (zone : String) (records : List Record)
    (h : (SetRecords lib api log zone records).err ≠ none) :
    (SetRecords lib api log zone records).records = [] := by
  cases hd : api.domain log (libdnsZoneToDnslaDomain zone) with
  | error e => simp [SetRecords_domain_error lib api log zone records e hd]
  | ok d =>
    cases hc : classifyLoop lib api d.ID zone records
        ⟨[], [], log ++ [.domain (libdnsZoneToDnslaDomain zone)]⟩ with
    | error el =>
      rcases el with ⟨e, log1⟩
      simp [SetRecords_classify_error lib api log zone records d e log1 hd hc]
    | ok c =>
      rw [SetRecords_classify_ok lib api log zone records d c hd hc] at h ⊢
      split_ifs at h ⊢ <;> simp_all

theorem updatesOf_map_update (f : Record → dnslaRecordPayload) (l : List Record) :
    updatesOf (l.map fun r => Request.update (f r)) = l.map f ∧
    createsOf (l.map fun r => Request.update (f r)) = [] ∧
    deletesOf (l.map fun r => Request.update (f r)) = [] := by
  induction l with
  | nil => exact ⟨rfl, rfl, rfl⟩
  | cons a l ih =>
    obtain ⟨h1, h2, h3⟩ := ih
    refine ⟨?_, ?_, ?_⟩
    · simpa [updatesOf] using h1
    · simp [createsOf]
    · simp [deletesOf]

/-- The run of `SetRecords` that returns no error, on a batch without an ambiguous
record, against a provider that answers the lookup of `x` with `view x` as long as only
reads are made; `d2` is the answer to the domain lookup of the create path. -/
theorem SetRecords_run (lib : Lib) (api : Api) (log : List Request) (zone : String)
    (d : dnslaDomainResponse) (view : Record → dnslaDomainRecordsResponse)
    (records : List Record)
    (hd : api.domain log (libdnsZoneToDnslaDomain zone) = .ok d)
    (hview : ∀ ext : List Request, (∀ q ∈ ext, q.isRead = true) → ∀ x ∈ records, x.ID = "" →
      api.recordList (log ++ ext) (matchQuery x d.ID) = .ok (view x))
    (hamb : ∀ x ∈ records, x.ID = "" → (view x).Results.length ≤ 1)
    (herr : (SetRecords lib api log zone records).err = none) :
    ∃ (d2 : dnslaDomainResponse) (ext0 ext : List Request) (created : List Record),
      (∀ q ∈ ext0, q.isRead = true) ∧
      api.domain (log ++ ext0) (libdnsZoneToDnslaDomain zone) = .ok d2 ∧
      SetRecords lib api log zone records =
        ⟨created ++ (setUpdates view records).map floorTTL, none,
          log ++ ext ++
            (setUpdates view records).map fun x => .update (updatePayload lib zone (floorTTL x))⟩ ∧
      createsOf ext =
        (setCreates view records).map (fun x => createPayload lib d2.ID zone (floorTTL x)) ∧
      updatesOf ext = [] ∧ deletesOf ext = [] ∧
      List.Forall₂ (fun out inp => out.Typ = inp.Typ ∧ out.Name = inp.Name ∧
          out.Value = inp.Value ∧ out.Priority = inp.Priority ∧
          out.TTL = (floorTTL inp).TTL) created (setCreates view records) := by
  obtain ⟨ext1, hext1, hcl⟩ := classifyLoop_view lib api log d.ID zone view records
    ⟨[], [], log ++ [.domain (libdnsZoneToDnslaDomain zone)]⟩
    [.domain (libdnsZoneToDnslaDomain zone)] rfl
    (by intro q hq; simp at hq; subst hq; rfl) hview hamb
  simp only [List.nil_append] at hcl
  obtain ⟨hc1, hu1, hd1⟩ := reads_no_mutation ext1 hext1
  rw [SetRecords_classify_ok lib api log zone records d _ hd hcl] at herr ⊢
  simp only at herr ⊢
  by_cases hA : (AppendRecords lib api (log ++ ext1) zone (setCreates view records)).err = none
  swap
  · rw [if_neg hA] at herr; exact absurd herr hA
  rw [if_pos hA] at herr ⊢
  by_cases hU : (updateRecords lib api
      (AppendRecords lib api (log ++ ext1) zone (setCreates view records)).log zone
      (setUpdates view records)).err = none
  swap
  · rw [if_neg hU] at herr; exact absurd herr hU
  rw [if_pos hU]
  cases hd2 : api.domain (log ++ ext1) (libdnsZoneToDnslaDomain zone) with
  | error e =>
    rw [AppendRecords_domain_error lib api _ zone _ e hd2] at hA
    simp at hA
  | ok d2 =>
    rw [AppendRecords_domain_ok lib api _ zone _ d2 hd2] at hA hU ⊢
    obtain ⟨extra, n, added, hl, hr, hn, ha, hc, hu, hde, he⟩ :=
      appendLoop_trace lib api d2.ID zone (setCreates view records) []
        (log ++ ext1 ++ [.domain (libdnsZoneToDnslaDomain zone)])
    obtain ⟨added2, hr2, hf⟩ := appendLoop_result lib api d2.ID zone (setCreates view records)
      [] (log ++ ext1 ++ [.domain (libdnsZoneToDnslaDomain zone)]) hA
    have hlen := he hA
    have hn' : n = (setCreates view records).length := by omega
    rw [hr, List.nil_append] at hr2
    subst hr2
    unfold updateRecords at hU ⊢
    obtain ⟨k, -, hul, huok, -⟩ := updateLoop_trace lib api zone (setUpdates view records) []
      (appendLoop lib api d2.ID zone (setCreates view records) []
        (log ++ ext1 ++ [.domain (libdnsZoneToDnslaDomain zone)])).log
    obtain ⟨hk, hur⟩ := huok hU
    rw [hul, hur, hr, hl, hk, List.take_length]
    refine ⟨d2, ext1, ext1 ++ [.domain (libdnsZoneToDnslaDomain zone)] ++ extra, added,
      hext1, hd2, ?_, ?_, ?_, ?_, hf⟩
    · simp
    · simp only [createsOf_append, hc1, hc, hn', List.take_length, List.nil_append]
      rfl
    · simp only [updatesOf_append, hu1, hu, List.append_nil]
      rfl
    · simp only [deletesOf_append, hd1, hde, List.append_nil]
      rfl

end set

section get

theorem GetRecords_small (lib : Lib) (api : Api) (log : List Request) (zone : String)
    (d : dnslaDomainResponse) (resp : dnslaDomainRecordsResponse)
    (hd : api.domain log (libdnsZoneToDnslaDomain zone) = .ok d)
    (h1 : api.recordList (log ++ [.domain (libdnsZoneToDnslaDomain zone)]) (firstPage d.ID) =
      .ok resp)
    (ht : resp.Total ≤ 10) :
    GetRecords lib api log zone =
      ⟨resp.Results.map (fun rec => toLibdnsRecord lib rec zone), none,
        log ++ [.domain (libdnsZoneToDnslaDomain zone), .recordList (firstPage d.ID)]⟩ := by
  have ht' : ¬ 10 < resp.Total := by omega
  simp [GetRecords, hd, h1, ht']

theorem GetRecords_big (lib : Lib) (api : Api) (log : List Request) (zone : String)
    (d : dnslaDomainResponse) (resp resp2 : dnslaDomainRecordsResponse)
    (hd : api.domain log (libdnsZoneToDnslaDomain zone) = .ok d)
    (h1 : api.recordList (log ++ [.domain (libdnsZoneToDnslaDomain zone)]) (firstPage d.ID) =
      .ok resp)
    (ht : 10 < resp.Total)
    (h2 : api.recordList
        (log ++ [.domain (libdnsZoneToDnslaDomain zone), .recordList (firstPage d.ID)])
        (wholePage resp.Total d.ID) = .ok resp2) :
    GetRecords lib api log zone =
      ⟨resp2.Results.map (fun rec => toLibdnsRecord lib rec zone), none,
        log ++ [.domain (libdnsZoneToDnslaDomain zone), .recordList (firstPage d.ID),
          .recordList (wholePage resp.Total d.ID)]⟩ := by
  simp [GetRecords, hd, h1, ht, h2]

theorem toLibdnsRecord_ID (lib : Lib) (zone : String) (l : List dnslaDomainRecordResponse) :
    (l.map fun rec => toLibdnsRecord lib rec zone).map (fun r => r.ID) = l.map fun x => x.ID := by
  simp [toLibdnsRecord, Function.comp_def]

end get

section delete

theorem deleteQueued_cons_error (api : Api) (m : Record) (rest deleted : List Record)
    (log : List Request) (e : String) (h : api.delete log m.ID = .error e) :
    deleteQueued api (m :: rest) deleted log =
      ⟨deleted, some (.api e), log ++ [.delete m.ID]⟩ := by
  simp [deleteQueued, h]

theorem deleteQueued_cons_ok (api : Api) (m : Record) (rest deleted : List Record)
    (log : List Request) (u : Unit) (h : api.delete log m.ID = .ok u) :
    deleteQueued api (m :: rest) deleted log =
      deleteQueued api rest (deleted ++ [m]) (log ++ [.delete m.ID]) := by
  simp [deleteQueued, h]

/-- The inner loop when every `DELETE` of the queue succeeds. -/
theorem deleteQueued_ok (api : Api) :
    ∀ (queue deleted : List Record) (log : List Request),
      (∀ (i : Nat) (hi : i < queue.length),
        api.delete (log ++ (queue.take i).map fun m => .delete m.ID) queue[i].ID = .ok ()) →
      deleteQueued api queue deleted log =
        ⟨deleted ++ queue, none, log ++ queue.map fun m => .delete m.ID⟩ := by
  intro queue
  induction queue with
  | nil => intro deleted log _; simp [deleteQueued]
  | cons m rest ih =>
    intro deleted log h
    have h0 := h 0 (by simp)
    simp only [List.take_zero, List.map_nil, List.append_nil, List.getElem_cons_zero] at h0
    rw [deleteQueued_cons_ok api m rest deleted log () h0, ih]
    · simp
    · intro i hi
      have := h (i + 1) (by simpa using hi)
      simpa using this

/-- The inner loop when the `DELETE` requests of `done` succeed and the next one fails. -/
theorem deleteQueued_fail (api : Api) (m : Record) (todo : List Record) (e : String) :
    ∀ (done deleted : List Record) (log : List Request),
      (∀ (i : Nat) (hi : i < done.length),
        api.delete (log ++ (done.take i).map fun m => .delete m.ID) done[i].ID = .ok ()) →
      api.delete (log ++ done.map fun m => .delete m.ID) m.ID = .error e →
      deleteQueued api (done ++ m :: todo) deleted log =
        ⟨deleted ++ done, some (.api e), log ++ (done ++ [m]).map fun m => .delete m.ID⟩ := by
  intro done
  induction done with
  | nil =>
    intro deleted log _ he
    simp only [List.map_nil, List.append_nil] at he
    simp [deleteQueued_cons_error api m todo deleted log e he]
  | cons x rest ih =>
    intro deleted log h he
    have h0 := h 0 (by simp)
    simp only [List.take_zero, List.map_nil, List.append_nil, List.getElem_cons_zero] at h0
    rw [List.cons_append, deleteQueued_cons_ok api x _ deleted log () h0, ih]
    · simp
    · intro i hi
      have := h (i + 1) (by simpa using hi)
      simpa using this
    · simpa using he

/-- The error of the inner loop is an error of a provider call. -/
theorem deleteQueued_err (api : Api) :
    ∀ (queue deleted : List Record) (log : List Request) (r : Record),
      (deleteQueued api queue deleted log).err ≠ some (.ambiguous r) := by
  intro queue
  induction queue with
  | nil => intro deleted log r; simp [deleteQueued]
  | cons m rest ih =>
    intro deleted log r
    cases h : api.delete log m.ID with
    | error e => simp [deleteQueued_cons_error api m rest deleted log e h]
    | ok u => rw [deleteQueued_cons_ok api m rest deleted log u h]; exact ih _ _ r

theorem getMatchingRecord_err (lib : Lib) (api : Api) (log : List Request) (x : Record)
    (id zone : String) (r : Record) :
    (getMatchingRecord lib api log x id zone).err ≠ some (.ambiguous r) := by
  cases h1 : api.recordList log (matchQuery x id) with
  | error e => simp [getMatchingRecord_error lib api log x id zone e h1]
  | ok resp =>
    by_cases ht : 10 < resp.Total
    · cases h2 : api.recordList (log ++ [Request.recordList (matchQuery x id)])
          (matchQuery x id) with
      | error e => simp [getMatchingRecord_big_error lib api log x id zone resp e h1 ht h2]
      | ok resp2 => simp [getMatchingRecord_big_ok lib api log x id zone resp resp2 h1 ht h2]
    · simp [getMatchingRecord_small lib api log x id zone resp h1 (by omega)]

theorem deleteLoop_nil (lib : Lib) (api : Api) (id zone : String) (deleted : List Record)
    (log : List Request) :
    deleteLoop lib api id zone [] deleted log = ⟨deleted, none, log⟩ := rfl

/-- One turn of the outer loop of `DeleteRecords`. -/
theorem deleteLoop_cons (lib : Lib) (api : Api) (id zone : String) (r : Record)
    (rest deleted : List Record) (log : List Request) :
    deleteLoop lib api id zone (r :: rest) deleted log =
      if r.ID = "" then
        if (getMatchingRecord lib api log r id zone).err = none then
          if (deleteQueued api (getMatchingRecord lib api log r id zone).records deleted
              (getMatchingRecord lib api log r id zone).log).err = none then
            deleteLoop lib api id zone rest
              (deleteQueued api (getMatchingRecord lib api log r id zone).records deleted
                (getMatchingRecord lib api log r id zone).log).records
              (deleteQueued api (getMatchingRecord lib api log r id zone).records deleted
                (getMatchingRecord lib api log r id zone).log).log
          else
            deleteQueued api (getMatchingRecord lib api log r id zone).records deleted
              (getMatchingRecord lib api log r id zone).log
        else
          ⟨deleted, (getMatchingRecord lib api log r id zone).err,
            (getMatchingRecord lib api log r id zone).log⟩
      else
        if (deleteQueued api [r] deleted log).err = none then
          deleteLoop lib api id zone rest (deleteQueued api [r] deleted log).records
            (deleteQueued api [r] deleted log).log
        else deleteQueued api [r] deleted log := by
  rw [deleteLoop]
  by_cases hid : r.ID = ""
  · simp only [hid, if_true]
    generalize getMatchingRecord lib api log r id zone = m
    rcases m with ⟨mr, me, ml⟩
    cases me with
    | some e => simp
    | none =>
      simp only [if_true]
      generalize deleteQueued api mr deleted ml = q
      rcases q with ⟨qr, qe, ql⟩
      cases qe <;> simp
  · simp only [hid, if_false]
    generalize deleteQueued api [r] deleted log = q
    rcases q with ⟨qr, qe, ql⟩
    cases qe <;> simp

/-- Running the outer loop of `DeleteRecords` over `xs ++ ys` is running it over `xs`
and, when that ends without an error, over `ys` from the state reached. -/
theorem deleteLoop_append (lib : Lib) (api : Api) (id zone : String) (ys : List Record) :
    ∀ (xs deleted : List Record) (log : List Request),
      deleteLoop lib api id zone (xs ++ ys) deleted log =
        if (deleteLoop lib api id zone xs deleted log).err = none then
          deleteLoop lib api id zone ys (deleteLoop lib api id zone xs deleted log).records
            (deleteLoop lib api id zone xs deleted log).log
        else deleteLoop lib api id zone xs deleted log := by
  intro xs
  induction xs with
  | nil => intro deleted log; simp [deleteLoop_nil]
  | cons r rest ih =>
    intro deleted log
    rw [List.cons_append, deleteLoop_cons lib api id zone r (rest ++ ys),
      deleteLoop_cons lib api id zone r rest]
    by_cases hid : r.ID = ""
    · simp only [hid, if_true]
      by_cases hm : (getMatchingRecord lib api log r id zone).err = none
      · simp only [hm, if_true]
        by_cases hq : (deleteQueued api (getMatchingRecord lib api log r id zone).records deleted
            (getMatchingRecord lib api log r id zone).log).err = none
        · simp only [hq, if_true]; exact ih _ _
        · simp [hq]
      · simp [hm]
    · simp only [hid, if_false]
      by_cases hq : (deleteQueued api [r] deleted log).err = none
      · simp only [hq, if_true]; exact ih _ _
      · simp [hq]

/-- The error of `DeleteRecords` is an error of a provider call. -/
theorem deleteLoop_err (lib : Lib) (api : Api) (id zone : String) :
    ∀ (records deleted : List Record) (log : List Request) (r : Record),
      (deleteLoop lib api id zone records deleted log).err ≠ some (.ambiguous r) := by
  intro records
  induction records with
  | nil => intro deleted log r; simp [deleteLoop_nil]
  | cons x rest ih =>
    intro deleted log r
    rw [deleteLoop_cons]
    split_ifs
    · exact ih _ _ r
    · exact deleteQueued_err api _ _ _ r
    · exact getMatchingRecord_err lib api log x id zone r
    · exact ih _ _ r
    · exact deleteQueued_err api _ _ _ r

theorem DeleteRecords_domain_error (lib : Lib) (api : Api) (log : List Request)
    (zone : String) (records : List Record) (e : String)
    (h : api.domain log (libdnsZoneToDnslaDomain zone) = .error e) :
    DeleteRecords lib api log zone records =
      ⟨[], some (.api e), log ++ [.domain (libdnsZoneToDnslaDomain zone)]⟩ := by
  simp [DeleteRecords, h]

theorem DeleteRecords_domain_ok (lib : Lib) (api : Api) (log : List Request)
    (zone : String) (records : List Record) (d : dnslaDomainResponse)
    (h : api.domain log (libdnsZoneToDnslaDomain zone) = .ok d) :
    DeleteRecords lib api log zone records =
      deleteLoop lib api d.ID zone records [] (log ++ [.domain (libdnsZoneToDnslaDomain zone)]) := by
  simp [DeleteRecords, h]

/-- After a run of `DeleteRecords` over `done` without an error, the run over
`done ++ ys` continues with `ys` from the result and the log of the first run. -/
theorem DeleteRecords_append (lib : Lib) (api : Api) (log : List Request) (zone : String)
    (d : dnslaDomainResponse) (done ys : List Record)
    (hd : api.domain log (libdnsZoneToDnslaDomain zone) = .ok d)
    (h : (DeleteRecords lib api log zone done).err = none) :
    DeleteRecords lib api log zone (done ++ ys) =
      deleteLoop lib api d.ID zone ys (DeleteRecords lib api log zone done).records
        (DeleteRecords lib api log zone done).log := by
  rw [DeleteRecords_domain_ok lib api log zone _ d hd] at h ⊢
  rw [DeleteRecords_domain_ok lib api log zone _ d hd, deleteLoop_append, if_pos h]

/-- One more record without an identifier, whose lookup and `DELETE` requests succeed. -/
theorem DeleteRecords_snoc_lookup (lib : Lib) (api : Api) (log : List Request) (zone : String)
    (d : dnslaDomainResponse) (done : List Record) (r : Record) (found : List Record)
    (log1 : List Request)
    (hd : api.domain log (libdnsZoneToDnslaDomain zone) = .ok d)
    (h : (DeleteRecords lib api log zone done).err = none)
    (hid : r.ID = "")
    (hm : getMatchingRecord lib api (DeleteRecords lib api log zone done).log r d.ID zone =
      ⟨found, none, log1⟩)
    (hdel : ∀ (i : Nat) (hi : i < found.length),
      api.delete (log1 ++ (found.take i).map fun m => .delete m.ID) found[i].ID = .ok ()) :
    DeleteRecords lib api log zone (done ++ [r]) =
      ⟨(DeleteRecords lib api log zone done).records ++ found, none,
        log1 ++ found.map fun m => .delete m.ID⟩ := by
  rw [DeleteRecords_append lib api log zone d done [r] hd h, deleteLoop_cons, if_pos hid, hm]
  simp only [if_true]
  rw [deleteQueued_ok api found _ log1 hdel]
  simp [deleteLoop_nil]

theorem deletesOf_map_delete (l : List Record) :
    deletesOf (l.map fun m => Request.delete m.ID) = l.map fun m => m.ID := by
  induction l with
  | nil => rfl
  | cons a l ih => simpa [deletesOf] using ih

end delete

section sim

theorem simLive_reads (remote : List dnslaDomainRecordResponse) (ext : List Request)
    (h : ∀ q ∈ ext, q.isRead = true) : simLive remote ext = remote := by
  have hd : deletesOf ext = [] := by
    unfold deletesOf
    rw [List.filterMap_eq_nil_iff]
    intro q hq
    have := h q hq
    cases q <;> simp_all [Request.isRead]
  simp [simLive, hd]

theorem simApi_page (remote : List dnslaDomainRecordResponse) (ext : List Request) (n : Int)
    (id : String) (h : ∀ q ∈ ext, q.isRead = true) :
    (simApi remote).recordList ([] ++ ext)
        { pageIndex := 1, pageSize := n, domainId := id, typ := none, host := none } =
      .ok ⟨remote.length, remote.take n.toNat⟩ := by
  simp [simApi, simList, simLive_reads remote ext h]

theorem simApi_view (remote : List dnslaDomainRecordResponse) (ext : List Request)
    (q : RecordListQuery) (h : ∀ x ∈ ext, x.isRead = true) :
    (simApi remote).recordList ([] ++ ext) q = .ok (simList remote [] q) := by
  simp [simApi, simList, simLive_reads remote ext h, simLive_reads remote [] (by simp)]

end sim

/-! ## The claims -/

/-- C10. Type codec round trip: the eight canonical names are encoded by
`libDnsToDnslaRecordType` as 1, 2, 5, 15, 16, 28, 33, 257 (pairwise distinct, none zero),
and `dnslaToLibDnsRecordType` decodes the code of each name back to the name. -/
theorem type_codec_round_trip :
    supportedTypes = ["A", "NS", "CNAME", "MX", "TXT", "AAAA", "SRV", "CAA"] ∧
    supportedTypes.map libDnsToDnslaRecordType = [1, 2, 5, 15, 16, 28, 33, 257] ∧
    (supportedTypes.map libDnsToDnslaRecordType).Nodup ∧
    (0 : Int) ∉ supportedTypes.map libDnsToDnslaRecordType ∧
    supportedTypes.map (fun name => dnslaToLibDnsRecordType (libDnsToDnslaRecordType name)) =
      supportedTypes := by
  decide

/-- C1. TTL floor: the `ttl` fields of the create requests that `AppendRecords` makes,
and of the update requests that `updateRecords` makes, are those of the first `n` input
records, in order (all of them when the call returns no error), each being 600 when the
record's TTL is below 600 seconds and the TTL in whole seconds otherwise; no `ttl` sent
is below 600. -/
theorem ttl_floor (lib : Lib) (api : Api) (log : List Request) (zone : String)
    (records : List Record) :
    (∃ n, n ≤ records.length ∧
      ((createsOf ((AppendRecords lib api log zone records).log.drop log.length)).map
          fun p => p.TTL) =
        ((records.take n).map fun r =>
          if r.TTL < 600 * second then 600 else r.TTL.tdiv second) ∧
      ((AppendRecords lib api log zone records).err = none → n = records.length)) ∧
    (∃ n, n ≤ records.length ∧
      ((updatesOf ((updateRecords lib api log zone records).log.drop log.length)).map
          fun p => p.TTL) =
        ((records.take n).map fun r =>
          if r.TTL < 600 * second then 600 else r.TTL.tdiv second) ∧
      ((updateRecords lib api log zone records).err = none → n = records.length)) ∧
    (∀ p ∈ createsOf ((AppendRecords lib api log zone records).log.drop log.length),
      600 ≤ p.TTL) ∧
    (∀ p ∈ updatesOf ((updateRecords lib api log zone records).log.drop log.length),
      600 ≤ p.TTL) := by
  have hA : ∃ n, n ≤ records.length ∧
      createsOf ((AppendRecords lib api log zone records).log.drop log.length) =
        ((records.take n).map fun r =>
          createPayload lib
            (match api.domain log (libdnsZoneToDnslaDomain zone) with
              | .ok d => d.ID
              | .error _ => "") zone (floorTTL r)) ∧
      ((AppendRecords lib api log zone records).err = none → n = records.length) := by
    cases hd : api.domain log (libdnsZoneToDnslaDomain zone) with
    | error e =>
      rw [AppendRecords_domain_error lib api log zone records e hd]
      exact ⟨0, by simp, by simp [createsOf], by simp⟩
    | ok d =>
      rw [AppendRecords_domain_ok lib api log zone records d hd]
      obtain ⟨extra, n, added, hl, -, hn, ha, hc, -, -, he⟩ :=
        appendLoop_trace lib api d.ID zone records []
          (log ++ [.domain (libdnsZoneToDnslaDomain zone)])
      refine ⟨n, hn, ?_, ?_⟩
      · simp only [hl, List.append_assoc, List.drop_left, createsOf_append, hc]
        simp [createsOf]
      · intro h0
        have := he h0
        omega
  have hU : ∃ n, n ≤ records.length ∧
      updatesOf ((updateRecords lib api log zone records).log.drop log.length) =
        ((records.take n).map fun r => updatePayload lib zone (floorTTL r)) ∧
      ((updateRecords lib api log zone records).err = none → n = records.length) := by
    unfold updateRecords
    obtain ⟨n, hn, hl, hok, -⟩ := updateLoop_trace lib api zone records [] log
    refine ⟨n, hn, ?_, fun h0 => (hok h0).1⟩
    rw [hl, List.drop_left]
    generalize records.take n = l
    induction l with
    | nil => rfl
    | cons a l ih => simpa [updatesOf] using ih
  obtain ⟨n, hn, hc, he⟩ := hA
  obtain ⟨m, hm, hu, hue⟩ := hU
  refine ⟨⟨n, hn, ?_, he⟩, ⟨m, hm, ?_, hue⟩, ?_, ?_⟩
  · rw [hc, List.map_map]
    refine List.map_congr_left fun r _ => ?_
    exact (floorTTL_seconds r).1
  · rw [hu, List.map_map]
    refine List.map_congr_left fun r _ => ?_
    exact (floorTTL_seconds r).1
  · intro p hp
    rw [hc] at hp
    obtain ⟨r, -, rfl⟩ := List.mem_map.1 hp
    exact (floorTTL_seconds r).2
  · intro p hp
    rw [hu] at hp
    obtain ⟨r, -, rfl⟩ := List.mem_map.1 hp
    exact (floorTTL_seconds r).2

theorem ttl_floor_witness :
    (600 : Int) ≤ (createPayload simLib "d1" "example.com." (floorTTL wantedMail)).TTL ∧
    (600 : Int) ≤ (updatePayload simLib "example.com." (floorTTL wantedMail)).TTL :=
  ⟨(ttl_floor simLib (staticApi remote1) [] "example.com." [wantedMail]).2.2.1 _ (by decide),
    (ttl_floor simLib (staticApi remote1) [] "example.com." [wantedMail]).2.2.2 _ (by decide)⟩

/-- C3. Pagination in list: after the domain lookup, `GetRecords` asks for page 1 of
size 10.  When the reported total is at most 10 it makes no further request and returns
the conversion of that page; when the total `T` exceeds 10 it makes one more listing
request, for page 1 of size `T`, and returns the conversion of that second page.  So
against a provider that, as long as only reads are made, answers a page-1 request of size
`n` with the total `T` and the first `min n T` of its `T` records, `GetRecords` returns
the conversion of all `T` records, in order, without an error, with as many distinct
identifiers as the provider holds, in at most two listing requests. -/
theorem GetRecords_pagination (lib : Lib) (api : Api) (log : List Request) (zone : String)
    (d : dnslaDomainResponse)
    (hd : api.domain log (libdnsZoneToDnslaDomain zone) = .ok d) :
    (∀ resp : dnslaDomainRecordsResponse,
      api.recordList (log ++ [.domain (libdnsZoneToDnslaDomain zone)])
        { pageIndex := 1, pageSize := 10, domainId := d.ID, typ := none, host := none } =
          .ok resp →
      resp.Total ≤ 10 →
      GetRecords lib api log zone =
        ⟨resp.Results.map (fun rec => toLibdnsRecord lib rec zone), none,
          log ++ [.domain (libdnsZoneToDnslaDomain zone),
            .recordList
              { pageIndex := 1, pageSize := 10, domainId := d.ID, typ := none, host := none }]⟩) ∧
    (∀ resp resp2 : dnslaDomainRecordsResponse,
      api.recordList (log ++ [.domain (libdnsZoneToDnslaDomain zone)])
        { pageIndex := 1, pageSize := 10, domainId := d.ID, typ := none, host := none } =
          .ok resp →
      10 < resp.Total →
      api.recordList
        (log ++ [.domain (libdnsZoneToDnslaDomain zone),
          .recordList
            { pageIndex := 1, pageSize := 10, domainId := d.ID, typ := none, host := none }])
        { pageIndex := 1, pageSize := resp.Total, domainId := d.ID, typ := none, host := none } =
          .ok resp2 →
      GetRecords lib api log zone =
        ⟨resp2.Results.map (fun rec => toLibdnsRecord lib rec zone), none,
          log ++ [.domain (libdnsZoneToDnslaDomain zone),
            .recordList
              { pageIndex := 1, pageSize := 10, domainId := d.ID, typ := none, host := none },
            .recordList
              { pageIndex := 1, pageSize := resp.Total, domainId := d.ID, typ := none,
                host := none }]⟩) ∧
    (∀ remote : List dnslaDomainRecordResponse,
      (∀ (ext : List Request) (n : Int), (∀ q ∈ ext, q.isRead = true) →
        api.recordList (log ++ ext)
          { pageIndex := 1, pageSize := n, domainId := d.ID, typ := none, host := none } =
            .ok ⟨remote.length, remote.take n.toNat⟩) →
      (GetRecords lib api log zone).err = none ∧
      (GetRecords lib api log zone).records =
        remote.map (fun rec => toLibdnsRecord lib rec zone) ∧
      (GetRecords lib api log zone).records.length = remote.length ∧
      (GetRecords lib api log zone).records.map (fun r => r.ID) = remote.map (fun x => x.ID) ∧
      ((remote.map fun x => x.ID).Nodup → (GetRecords lib api log zone).records.Nodup) ∧
      (listingsOf ((GetRecords lib api log zone).log.drop log.length)).length ≤ 2) := by
  refine ⟨fun resp h1 ht => GetRecords_small lib api log zone d resp hd h1 ht,
    fun resp resp2 h1 ht h2 => GetRecords_big lib api log zone d resp resp2 hd h1 ht h2, ?_⟩
  intro remote hh
  have key : (GetRecords lib api log zone).err = none ∧
      (GetRecords lib api log zone).records =
        remote.map (fun rec => toLibdnsRecord lib rec zone) ∧
      (listingsOf ((GetRecords lib api log zone).log.drop log.length)).length ≤ 2 := by
    have h1 := hh [.domain (libdnsZoneToDnslaDomain zone)] 10
      (by intro q hq; simp at hq; subst hq; rfl)
    by_cases ht : (remote.length : Int) ≤ 10
    · rw [GetRecords_small lib api log zone d _ hd h1 ht]
      have hlen : remote.length ≤ 10 := by omega
      refine ⟨rfl, ?_, ?_⟩
      · simp [List.take_of_length_le hlen]
      · simp [listingsOf]
    · have h2 := hh [.domain (libdnsZoneToDnslaDomain zone), .recordList (firstPage d.ID)]
        (remote.length : Int)
        (by intro q hq; simp at hq; rcases hq with rfl | rfl <;> rfl)
      rw [GetRecords_big lib api log zone d _ _ hd h1 (by simpa using ht) h2]
      refine ⟨rfl, ?_, ?_⟩
      · simp
      · simp [listingsOf]
  obtain ⟨he, hr, hl⟩ := key
  refine ⟨he, hr, by rw [hr]; simp, by rw [hr]; exact toLibdnsRecord_ID lib zone remote, ?_, hl⟩
  intro hnd
  have : ((GetRecords lib api log zone).records.map fun r => r.ID).Nodup := by
    rw [hr, toLibdnsRecord_ID]; exact hnd
  exact List.Nodup.of_map _ this

theorem GetRecords_pagination_witness :
    (GetRecords simLib (simApi remote23) [] "example.com.").err = none ∧
    (GetRecords simLib (simApi remote23) [] "example.com.").records.length = 23 ∧
    (GetRecords simLib (simApi remote23) [] "example.com.").records.Nodup ∧
    (listingsOf (GetRecords simLib (simApi remote23) [] "example.com.").log).length ≤ 2 :=
  have h := (GetRecords_pagination simLib (simApi remote23) [] "example.com." ⟨"d1"⟩ rfl).2.2
    remote23 (fun ext n hr => simApi_page remote23 ext n "d1" hr)
  ⟨h.1, h.2.2.1, h.2.2.2.2.1 (by decide), h.2.2.2.2.2⟩

/-- C4. The second request of `getMatchingRecord` does not ask for a page of the size
of the total: every listing request that `getMatchingRecord` makes has page size 10.
Against a simulated provider holding eleven records of the type and host looked up,
which reports the total 11, it makes the same request of page size 10 twice and
returns ten of the eleven matches. -/
theorem getMatchingRecord_page_size :
    (∀ (lib : Lib) (api : Api) (log : List Request) (r : Record) (id zone : String),
      ∀ q ∈ listingsOf ((getMatchingRecord lib api log r id zone).log.drop log.length),
        q.pageSize = 10) ∧
    (simList remote11 [] (matchQuery (wanted "") "d1")).Total = 11 ∧
    (getMatchingRecord simLib (simApi remote11) [] (wanted "") "d1" "example.com.").log =
      [.recordList
          { pageIndex := 1, pageSize := 10, domainId := "d1", typ := some 16, host := some "www" },
        .recordList
          { pageIndex := 1, pageSize := 10, domainId := "d1", typ := some 16,
            host := some "www" }] ∧
    (getMatchingRecord simLib (simApi remote11) [] (wanted "") "d1" "example.com.").err = none ∧
    (getMatchingRecord simLib (simApi remote11) [] (wanted "") "d1"
      "example.com.").records.length = 10 := by
  refine ⟨?_, by decide, by decide, by decide, by decide⟩
  intro lib api log r id zone q hq
  obtain ⟨n, -, -, hn⟩ := getMatchingRecord_log lib api log r id zone
  rw [hn, List.drop_left] at hq
  have : listingsOf (List.replicate n (Request.recordList (matchQuery r id))) =
      List.replicate n (matchQuery r id) := by
    induction n with
    | zero => rfl
    | succ k ih => simp [List.replicate_succ, listingsOf]
  rw [this] at hq
  rw [List.eq_of_mem_replicate hq]
  rfl

/-- C7. Delete resolves targets and deletes all matches.  The empty batch makes the
domain lookup only.  When the run over the records `done` has ended without an error,
one more record `r` at the end of the batch adds the following.  If `r` carries an
identifier and its `DELETE` request succeeds: that one `DELETE` request and nothing
else (no lookup), and `r` itself in the result.  If `r` carries no identifier, its lookup
returns the matches `found` and their `DELETE` requests succeed: after the requests of
the lookup, one `DELETE` request per match, with the match's identifier and in the order
of the matches, and exactly the records `found` in the result.  In both cases the call
returns no error, and the result is that of `done` followed by the new records. -/
theorem DeleteRecords_deletes_all_matches (lib : Lib) (api : Api) (log : List Request)
    (zone : String) (d : dnslaDomainResponse)
    (hd : api.domain log (libdnsZoneToDnslaDomain zone) = .ok d) :
    DeleteRecords lib api log zone [] =
      ⟨[], none, log ++ [.domain (libdnsZoneToDnslaDomain zone)]⟩ ∧
    (∀ (done : List Record) (r : Record),
      (DeleteRecords lib api log zone done).err = none →
      r.ID ≠ "" →
      api.delete (DeleteRecords lib api log zone done).log r.ID = .ok () →
      DeleteRecords lib api log zone (done ++ [r]) =
        ⟨(DeleteRecords lib api log zone done).records ++ [r], none,
          (DeleteRecords lib api log zone done).log ++ [.delete r.ID]⟩) ∧
    (∀ (done : List Record) (r : Record) (found : List Record) (log1 : List Request),
      (DeleteRecords lib api log zone done).err = none →
      r.ID = "" →
      getMatchingRecord lib api (DeleteRecords lib api log zone done).log r d.ID zone =
        ⟨found, none, log1⟩ →
      (∀ (i : Nat) (hi : i < found.length),
        api.delete (log1 ++ (found.take i).map fun m => .delete m.ID) found[i].ID = .ok ()) →
      DeleteRecords lib api log zone (done ++ [r]) =
        ⟨(DeleteRecords lib api log zone done).records ++ found, none,
          log1 ++ found.map fun m => .delete m.ID⟩ ∧
      deletesOf ((DeleteRecords lib api log zone (done ++ [r])).log.drop
          (DeleteRecords lib api log zone done).log.length) = found.map fun m => m.ID) := by
  refine ⟨?_, ?_, ?_⟩
  · rw [DeleteRecords_domain_ok lib api log zone _ d hd, deleteLoop_nil]
  · intro done r h hid hdel
    rw [DeleteRecords_append lib api log zone d done [r] hd h, deleteLoop_cons, if_neg hid,
      deleteQueued_cons_ok api r [] _ _ () hdel]
    simp [deleteQueued, deleteLoop_nil]
  · intro done r found log1 h hid hm hdel
    have key := DeleteRecords_snoc_lookup lib api log zone d done r found log1 hd h hid hm hdel
    refine ⟨key, ?_⟩
    obtain ⟨ext, hext, -, -, hde, -⟩ := getMatchingRecord_reads lib api
      (DeleteRecords lib api log zone done).log r d.ID zone
    rw [hm] at hext
    simp only at hext
    rw [key]
    simp only [hext, List.append_assoc, List.drop_left, deletesOf_append, hde, List.nil_append]
    exact deletesOf_map_delete found

theorem DeleteRecords_deletes_all_matches_witness :
    DeleteRecords simLib (simApi remote2) [] "example.com." [wanted ""] =
      ⟨[toLibdnsRecord simLib (txtRecord "1") "example.com.",
          toLibdnsRecord simLib (txtRecord "2") "example.com."], none,
        [.domain "example.com", .recordList (matchQuery (wanted "") "d1"),
          .delete "1", .delete "2"]⟩ ∧
    deletesOf ((DeleteRecords simLib (simApi remote2) [] "example.com." [wanted ""]).log.drop 1)
      = ["1", "2"] :=
  (DeleteRecords_deletes_all_matches simLib (simApi remote2) [] "example.com." ⟨"d1"⟩ rfl).2.2
    [] (wanted "")
    [toLibdnsRecord simLib (txtRecord "1") "example.com.",
      toLibdnsRecord simLib (txtRecord "2") "example.com."]
    [.domain "example.com", .recordList (matchQuery (wanted "") "d1")]
    (by decide) (by decide) (by decide)
    (fun i hi => by
      have hi2 : i = 0 ∨ i = 1 := by simp at hi; omega
      rcases hi2 with rfl | rfl <;> rfl)

/-- C6, as stated, fails: against a simulated provider holding two `TXT` records of host
`www`, the lookup for an identifier-less `TXT` record of host `www` returns two matches,
and `DeleteRecords` returns no error and makes a `DELETE` request for each of them. -/
theorem DeleteRecords_ambiguous_counterexample :
    (wanted "").ID = "" ∧
    (getMatchingRecord simLib (simApi remote2) [.domain "example.com"] (wanted "") "d1"
      "example.com.").records.length = 2 ∧
    (DeleteRecords simLib (simApi remote2) [] "example.com." [wanted ""]).err = none ∧
    deletesOf (DeleteRecords simLib (simApi remote2) [] "example.com." [wanted ""]).log =
      ["1", "2"] := by
  decide

/-- C6, amended. `DeleteRecords` never returns the error of an ambiguous match: the
errors it returns are errors of provider calls.  When the run over the records `done`
has ended without an error, and the lookup for one more identifier-less record `r`
returns two or more matches whose `DELETE` requests succeed, the call returns no error
and has made one `DELETE` request per match, in the order of the matches, for `r`. -/
theorem DeleteRecords_no_ambiguity_error (lib : Lib) (api : Api) (log : List Request)
    (zone : String) :
    (∀ (records : List Record) (r : Record),
      (DeleteRecords lib api log zone records).err ≠ some (.ambiguous r)) ∧
    (∀ (d : dnslaDomainResponse) (done : List Record) (r : Record) (found : List Record)
      (log1 : List Request),
      api.domain log (libdnsZoneToDnslaDomain zone) = .ok d →
      (DeleteRecords lib api log zone done).err = none →
      r.ID = "" →
      getMatchingRecord lib api (DeleteRecords lib api log zone done).log r d.ID zone =
        ⟨found, none, log1⟩ →
      2 ≤ found.length →
      (∀ (i : Nat) (hi : i < found.length),
        api.delete (log1 ++ (found.take i).map fun m => .delete m.ID) found[i].ID = .ok ()) →
      (DeleteRecords lib api log zone (done ++ [r])).err = none ∧
      deletesOf (DeleteRecords lib api log zone (done ++ [r])).log =
        deletesOf (DeleteRecords lib api log zone done).log ++ found.map fun m => m.ID) := by
  refine ⟨?_, ?_⟩
  · intro records r
    cases hd : api.domain log (libdnsZoneToDnslaDomain zone) with
    | error e => simp [DeleteRecords_domain_error lib api log zone records e hd]
    | ok d =>
      rw [DeleteRecords_domain_ok lib api log zone records d hd]
      exact deleteLoop_err lib api d.ID zone records _ _ r
  · intro d done r found log1 hd h hid hm _ hdel
    rw [DeleteRecords_snoc_lookup lib api log zone d done r found log1 hd h hid hm hdel]
    obtain ⟨ext, hext, -, -, hde, -⟩ := getMatchingRecord_reads lib api
      (DeleteRecords lib api log zone done).log r d.ID zone
    rw [hm] at hext
    simp only at hext
    refine ⟨rfl, ?_⟩
    simp only [hext, deletesOf_append, hde, List.append_nil]
    rw [deletesOf_map_delete]

theorem DeleteRecords_no_ambiguity_error_witness :
    (DeleteRecords simLib (simApi remote2) [] "example.com." ([] ++ [wanted ""])).err = none ∧
    deletesOf (DeleteRecords simLib (simApi remote2) [] "example.com." ([] ++ [wanted ""])).log =
      deletesOf (DeleteRecords simLib (simApi remote2) [] "example.com." []).log ++
        [toLibdnsRecord simLib (txtRecord "1") "example.com.",
          toLibdnsRecord simLib (txtRecord "2") "example.com."].map fun m => m.ID :=
  (DeleteRecords_no_ambiguity_error simLib (simApi remote2) [] "example.com.").2
    ⟨"d1"⟩ [] (wanted "")
    [toLibdnsRecord simLib (txtRecord "1") "example.com.",
      toLibdnsRecord simLib (txtRecord "2") "example.com."]
    [.domain "example.com", .recordList (matchQuery (wanted "") "d1")]
    rfl (by decide) (by decide) (by decide) (by decide)
    (fun i hi => by
      have hi2 : i = 0 ∨ i = 1 := by simp at hi; omega
      rcases hi2 with rfl | rfl <;> rfl)

/-- C9. Best-effort identifier recovery on create.  When the run of `AppendRecords` over
the records `done` has ended without an error and the create request for one more
record `r` succeeds, the call over `done ++ [r]` returns no error whatever the follow-up
lookup `m` gives, and its result is that of `done` followed by one record for `r`: the
record (after the TTL step) with the identifier of the match when the lookup succeeds
with exactly one match, and with its own identifier, that of the input, when the lookup
fails or returns zero or several matches.  A run of `AppendRecords` without an error
returns one record per input record, in input order, with the type, name, value and
priority of the input record. -/
theorem AppendRecords_identifier_recovery (lib : Lib) (api : Api) (log : List Request)
    (zone : String) :
    (∀ (d : dnslaDomainResponse) (done : List Record) (r : Record)
      (c : dnslaCreateRecordResponse) (m : Outcome),
      api.domain log (libdnsZoneToDnslaDomain zone) = .ok d →
      (AppendRecords lib api log zone done).err = none →
      api.create (AppendRecords lib api log zone done).log
        (createPayload lib d.ID zone (floorTTL r)) = .ok c →
      m = getMatchingRecord lib api
        ((AppendRecords lib api log zone done).log ++
          [.create (createPayload lib d.ID zone (floorTTL r))]) (floorTTL r) d.ID zone →
      (floorTTL r).ID = r.ID ∧
      (AppendRecords lib api log zone (done ++ [r])).err = none ∧
      (AppendRecords lib api log zone (done ++ [r])).log = m.log ∧
      (∀ x, m.err = none → m.records = [x] →
        (AppendRecords lib api log zone (done ++ [r])).records =
          (AppendRecords lib api log zone done).records ++ [{ floorTTL r with ID := x.ID }]) ∧
      (m.err ≠ none ∨ m.records.length ≠ 1 →
        (AppendRecords lib api log zone (done ++ [r])).records =
          (AppendRecords lib api log zone done).records ++ [floorTTL r])) ∧
    (∀ records : List Record,
      (AppendRecords lib api log zone records).err = none →
      (AppendRecords lib api log zone records).records.length = records.length ∧
      List.Forall₂ (fun out inp => out.Typ = inp.Typ ∧ out.Name = inp.Name ∧
          out.Value = inp.Value ∧ out.Priority = inp.Priority)
        (AppendRecords lib api log zone records).records records) := by
  refine ⟨?_, ?_⟩
  · intro d done r c m hd h hc hm
    have key : AppendRecords lib api log zone (done ++ [r]) =
        ⟨(AppendRecords lib api log zone done).records ++ [adoptID (floorTTL r) m], none,
          m.log⟩ := by
      rw [AppendRecords_append lib api log zone d done [r] hd h,
        appendLoop_cons_ok lib api d.ID zone r [] _ _ c hc, appendLoop_nil, hm]
    refine ⟨(floorTTL_fields r).1, by rw [key], by rw [key], ?_, ?_⟩
    · intro x he hr
      rw [key, adoptID_one (floorTTL r) m x he hr]
    · intro hne
      rw [key, adoptID_other (floorTTL r) m hne]
  · intro records h
    cases hd : api.domain log (libdnsZoneToDnslaDomain zone) with
    | error e => simp [AppendRecords_domain_error lib api log zone records e hd] at h
    | ok d =>
      rw [AppendRecords_domain_ok lib api log zone records d hd] at h ⊢
      obtain ⟨added, hr, hf⟩ := appendLoop_result lib api d.ID zone records [] _ h
      rw [hr, List.nil_append]
      refine ⟨hf.length_eq, hf.imp ?_⟩
      intro a b hab
      exact ⟨hab.1, hab.2.1, hab.2.2.1, hab.2.2.2.1⟩

theorem AppendRecords_identifier_recovery_witness :
    (floorTTL (wanted "")).ID = (wanted "").ID ∧
    (AppendRecords simLib (simApi remote1) [] "example.com." ([] ++ [wanted ""])).err = none ∧
    (AppendRecords simLib (simApi remote1) [] "example.com." ([] ++ [wanted ""])).records =
      (AppendRecords simLib (simApi remote1) [] "example.com." []).records ++
        [{ floorTTL (wanted "") with ID := "1" }] :=
  have h := (AppendRecords_identifier_recovery simLib (simApi remote1) [] "example.com.").1
    ⟨"d1"⟩ [] (wanted "") ⟨"new"⟩ _ rfl (by decide) rfl rfl
  ⟨h.1, h.2.1, h.2.2.2.1 (toLibdnsRecord simLib (txtRecord "1") "example.com.")
    (by decide) (by decide)⟩

/-- C8, as stated, fails for `SetRecords`: against a simulated provider holding the
records `"1"` and `"2"`, a batch of a record with identifier `"1"` and a record with the
unknown identifier `"zz"` has its first `PUT` request accepted and its second refused,
and `SetRecords` returns the error with an empty result, not with the updated record. -/
theorem SetRecords_failure_counterexample :
    (SetRecords simLib (simApi remote2) [] "example.com." [wanted "1", wanted "zz"]).log =
      [.domain "example.com", .domain "example.com",
        .update (updatePayload simLib "example.com." (wanted "1")),
        .update (updatePayload simLib "example.com." (wanted "zz"))] ∧
    (simApi remote2).update [.domain "example.com", .domain "example.com"]
      (updatePayload simLib "example.com." (wanted "1")) = .ok () ∧
    (SetRecords simLib (simApi remote2) [] "example.com." [wanted "1", wanted "zz"]).err =
      some (.api "no such record") ∧
    (SetRecords simLib (simApi remote2) [] "example.com." [wanted "1", wanted "zz"]).records =
      [] :=
  ⟨by decide, rfl, by decide, by decide⟩

/-- C8, amended.  In `AppendRecords` and `DeleteRecords`, when the run over the records
`done` has ended without an error and the provider operation for the next record `r`
fails (its create request; its `DELETE` request; its lookup; the `DELETE` request of one
of its matches), the call over `done ++ r :: rest` makes no request after the failing
one and returns the error with the records accumulated so far: those of `done`, one per
record of `done` in `AppendRecords`, and the matches of `r` already deleted.  In
`updateRecords` the loop stops at the failing `PUT` request as well, but the result
returned with the error is empty, and `SetRecords` returns an empty result with every
error. -/
theorem failure_returns_accumulated (lib : Lib) (api : Api) (log : List Request) (zone : String)
    (d : dnslaDomainResponse)
    (hd : api.domain log (libdnsZoneToDnslaDomain zone) = .ok d) :
    (∀ (done : List Record) (r : Record) (rest : List Record) (e : String),
      (AppendRecords lib api log zone done).err = none →
      api.create (AppendRecords lib api log zone done).log
        (createPayload lib d.ID zone (floorTTL r)) = .error e →
      AppendRecords lib api log zone (done ++ r :: rest) =
        ⟨(AppendRecords lib api log zone done).records, some (.api e),
          (AppendRecords lib api log zone done).log ++
            [.create (createPayload lib d.ID zone (floorTTL r))]⟩ ∧
      (AppendRecords lib api log zone done).records.length = done.length) ∧
    (∀ (done : List Record) (r : Record) (rest : List Record) (e : String),
      (DeleteRecords lib api log zone done).err = none →
      r.ID ≠ "" →
      api.delete (DeleteRecords lib api log zone done).log r.ID = .error e →
      DeleteRecords lib api log zone (done ++ r :: rest) =
        ⟨(DeleteRecords lib api log zone done).records, some (.api e),
          (DeleteRecords lib api log zone done).log ++ [.delete r.ID]⟩) ∧
    (∀ (done : List Record) (r : Record) (rest found : List Record) (e : Error)
      (log1 : List Request),
      (DeleteRecords lib api log zone done).err = none →
      r.ID = "" →
      getMatchingRecord lib api (DeleteRecords lib api log zone done).log r d.ID zone =
        ⟨found, some e, log1⟩ →
      DeleteRecords lib api log zone (done ++ r :: rest) =
        ⟨(DeleteRecords lib api log zone done).records, some e, log1⟩) ∧
    (∀ (done : List Record) (r : Record) (rest deleted : List Record) (m : Record)
      (todo : List Record) (e : String) (log1 : List Request),
      (DeleteRecords lib api log zone done).err = none →
      r.ID = "" →
      getMatchingRecord lib api (DeleteRecords lib api log zone done).log r d.ID zone =
        ⟨deleted ++ m :: todo, none, log1⟩ →
      (∀ (i : Nat) (hi : i < deleted.length),
        api.delete (log1 ++ (deleted.take i).map fun x => .delete x.ID) deleted[i].ID =
          .ok ()) →
      api.delete (log1 ++ deleted.map fun x => .delete x.ID) m.ID = .error e →
      DeleteRecords lib api log zone (done ++ r :: rest) =
        ⟨(DeleteRecords lib api log zone done).records ++ deleted, some (.api e),
          log1 ++ (deleted ++ [m]).map fun x => .delete x.ID⟩) ∧
    (∀ (done : List Record) (r : Record) (rest : List Record) (e : String),
      (updateRecords lib api log zone done).err = none →
      api.update (updateRecords lib api log zone done).log
        (updatePayload lib zone (floorTTL r)) = .error e →
      updateRecords lib api log zone (done ++ r :: rest) =
        ⟨[], some (.api e),
          (updateRecords lib api log zone done).log ++
            [.update (updatePayload lib zone (floorTTL r))]⟩) ∧
    (∀ records : List Record,
      (SetRecords lib api log zone records).err ≠ none →
      (SetRecords lib api log zone records).records = []) := by
  refine ⟨?_, ?_, ?_, ?_, ?_, ?_⟩
  · intro done r rest e h he
    refine ⟨?_, ?_⟩
    · rw [AppendRecords_append lib api log zone d done (r :: rest) hd h,
        appendLoop_cons_error lib api d.ID zone r rest _ _ e he]
    · rw [AppendRecords_domain_ok lib api log zone done d hd] at h ⊢
      obtain ⟨added, hr, hf⟩ := appendLoop_result lib api d.ID zone done [] _ h
      rw [hr, List.nil_append]
      exact hf.length_eq
  · intro done r rest e h hid he
    rw [DeleteRecords_append lib api log zone d done (r :: rest) hd h, deleteLoop_cons,
      if_neg hid, deleteQueued_cons_error api r [] _ _ e he]
    simp
  · intro done r rest found e log1 h hid hm
    rw [DeleteRecords_append lib api log zone d done (r :: rest) hd h, deleteLoop_cons,
      if_pos hid, hm]
    simp
  · intro done r rest deleted m todo e log1 h hid hm hok he
    rw [DeleteRecords_append lib api log zone d done (r :: rest) hd h, deleteLoop_cons,
      if_pos hid, hm]
    simp only [if_true]
    rw [deleteQueued_fail api m todo e deleted _ log1 hok he]
    simp
  · intro done r rest e h he
    unfold updateRecords at h he ⊢
    rw [updateLoop_append, if_pos h, updateLoop_cons_error lib api zone r rest _ _ e he]
  · intro records h
    exact SetRecords_error_empty lib api log zone records h

theorem failure_returns_accumulated_witness :
    DeleteRecords simLib (simApi remote2) [] "example.com."
        ([wanted "1"] ++ wanted "zz" :: [wanted "2"]) =
      ⟨(DeleteRecords simLib (simApi remote2) [] "example.com." [wanted "1"]).records,
        some (.api "no such record"),
        (DeleteRecords simLib (simApi remote2) [] "example.com." [wanted "1"]).log ++
          [.delete "zz"]⟩ ∧
    (DeleteRecords simLib (simApi remote2) [] "example.com." [wanted "1"]).records =
      [wanted "1"] :=
  ⟨(failure_returns_accumulated simLib (simApi remote2) [] "example.com." ⟨"d1"⟩ rfl).2.1
    [wanted "1"] (wanted "zz") [wanted "2"] "no such record" (by decide) (by decide) rfl,
    by decide⟩

/-- C2. Set classification and result order.  Take a run of `SetRecords` that returns no
error, its domain lookup answering `d`, against a provider that answers the lookup of
each identifier-less record `x` of the batch with the listing `view x` as long as only
reads are made, no such listing holding more than one match.  Then a record with an
identifier is sent as an update with that identifier; an identifier-less record with one
match is sent as an update with the identifier of the match; an identifier-less record
without a match is sent as a create, for the domain `d2` that the domain lookup of the
create path answers.  The create requests are those of the records to create, in input
order, the update requests those of the records to update, in input order, and there is
no `DELETE` request: one create or update per input record.  The result is one record
per record to create, in input order, followed by the records to update, in input order,
after their TTL step, so that it is as long as the input. -/
theorem SetRecords_classifies (lib : Lib) (api : Api) (log : List Request) (zone : String)
    (d : dnslaDomainResponse) (view : Record → dnslaDomainRecordsResponse)
    (records : List Record)
    (hd : api.domain log (libdnsZoneToDnslaDomain zone) = .ok d)
    (hview : ∀ ext : List Request, (∀ q ∈ ext, q.isRead = true) → ∀ x ∈ records, x.ID = "" →
      api.recordList (log ++ ext) (matchQuery x d.ID) = .ok (view x))
    (hamb : ∀ x ∈ records, x.ID = "" → (view x).Results.length ≤ 1)
    (herr : (SetRecords lib api log zone records).err = none) :
    ∃ d2 : dnslaDomainResponse,
    (∃ ext : List Request, (∀ q ∈ ext, q.isRead = true) ∧
      api.domain (log ++ ext) (libdnsZoneToDnslaDomain zone) = .ok d2) ∧
    (∀ x ∈ records, x.ID ≠ "" →
      (updatePayload lib zone (floorTTL x)).ID = x.ID ∧
      updatePayload lib zone (floorTTL x) ∈
        updatesOf ((SetRecords lib api log zone records).log.drop log.length)) ∧
    (∀ x ∈ records, x.ID = "" → ∀ m, (view x).Results = [m] →
      (updatePayload lib zone (floorTTL { x with ID := m.ID })).ID = m.ID ∧
      updatePayload lib zone (floorTTL { x with ID := m.ID }) ∈
        updatesOf ((SetRecords lib api log zone records).log.drop log.length)) ∧
    (∀ x ∈ records, x.ID = "" → (view x).Results = [] →
      createPayload lib d2.ID zone (floorTTL x) ∈
        createsOf ((SetRecords lib api log zone records).log.drop log.length)) ∧
    createsOf ((SetRecords lib api log zone records).log.drop log.length) =
      (setCreates view records).map (fun x => createPayload lib d2.ID zone (floorTTL x)) ∧
    updatesOf ((SetRecords lib api log zone records).log.drop log.length) =
      (setUpdates view records).map (fun x => updatePayload lib zone (floorTTL x)) ∧
    deletesOf ((SetRecords lib api log zone records).log.drop log.length) = [] ∧
    (createsOf ((SetRecords lib api log zone records).log.drop log.length)).length +
      (updatesOf ((SetRecords lib api log zone records).log.drop log.length)).length =
        records.length ∧
    (SetRecords lib api log zone records).records.length = records.length ∧
    (∃ created : List Record,
      (SetRecords lib api log zone records).records =
        created ++ (setUpdates view records).map floorTTL ∧
      List.Forall₂ (fun out inp => out.Typ = inp.Typ ∧ out.Name = inp.Name ∧
          out.Value = inp.Value ∧ out.Priority = inp.Priority ∧
          out.TTL = (floorTTL inp).TTL) created (setCreates view records)) := by
  obtain ⟨d2, ext0, ext, created, hext0, hd2, hrun, hc, hu, hde, hf⟩ :=
    SetRecords_run lib api log zone d view records hd hview hamb herr
  obtain ⟨u1, u2, u3⟩ := updatesOf_map_update (fun x => updatePayload lib zone (floorTTL x))
    (setUpdates view records)
  have hC : createsOf ((SetRecords lib api log zone records).log.drop log.length) =
      (setCreates view records).map (fun x => createPayload lib d2.ID zone (floorTTL x)) := by
    rw [hrun]
    simp only [List.append_assoc, List.drop_left, createsOf_append, hc, u2, List.append_nil]
  have hU : updatesOf ((SetRecords lib api log zone records).log.drop log.length) =
      (setUpdates view records).map (fun x => updatePayload lib zone (floorTTL x)) := by
    rw [hrun]
    simp only [List.append_assoc, List.drop_left, updatesOf_append, hu, u1, List.nil_append]
  have hD : deletesOf ((SetRecords lib api log zone records).log.drop log.length) = [] := by
    rw [hrun]
    simp only [List.append_assoc, List.drop_left, deletesOf_append, hde, u3, List.append_nil]
  have hpart := set_partition_length view records hamb
  refine ⟨d2, ⟨ext0, hext0, hd2⟩, ?_, ?_, ?_, hC, hU, hD, ?_, ?_,
    ⟨created, by rw [hrun], hf⟩⟩
  · intro x hx hid
    refine ⟨by simp [updatePayload, (floorTTL_fields x).1], ?_⟩
    rw [hU]
    refine List.mem_map.2 ⟨x, ?_, rfl⟩
    exact List.mem_filterMap.2 ⟨x, hx, by simp [hid]⟩
  · intro x hx hid m hm
    refine ⟨by simp [updatePayload, (floorTTL_fields _).1], ?_⟩
    rw [hU]
    refine List.mem_map.2 ⟨{ x with ID := m.ID }, ?_, rfl⟩
    exact List.mem_filterMap.2 ⟨x, hx, by simp [hid, hm]⟩
  · intro x hx hid hm
    rw [hC]
    refine List.mem_map.2 ⟨x, ?_, rfl⟩
    exact List.mem_filter.2 ⟨hx, by simp [hid, hm]⟩
  · rw [hC, hU]; simpa using hpart
  · rw [hrun]
    simp only [List.length_append, List.length_map, hf.length_eq]
    exact hpart

theorem SetRecords_classifies_witness :
    (SetRecords simLib (simApi remote1) [] "example.com." [wanted "1", wantedMail]).err =
      none ∧
    (createsOf (SetRecords simLib (simApi remote1) [] "example.com."
      [wanted "1", wantedMail]).log).length = 1 ∧
    (updatesOf (SetRecords simLib (simApi remote1) [] "example.com."
      [wanted "1", wantedMail]).log).map (fun p => p.ID) = ["1"] ∧
    deletesOf (SetRecords simLib (simApi remote1) [] "example.com."
      [wanted "1", wantedMail]).log = [] ∧
    (SetRecords simLib (simApi remote1) [] "example.com."
      [wanted "1", wantedMail]).records.length = 2 := by
  have herr : (SetRecords simLib (simApi remote1) [] "example.com."
      [wanted "1", wantedMail]).err = none := by decide
  have h := SetRecords_classifies simLib (simApi remote1) [] "example.com." ⟨"d1"⟩
    (fun x => simList remote1 [] (matchQuery x "d1")) [wanted "1", wantedMail]
    rfl (fun ext he x _ _ => simApi_view remote1 ext (matchQuery x "d1") he) (by decide) herr
  obtain ⟨d2, -, -, -, -, h5, h6, h7, -, h9, -⟩ := h
  simp only [List.length_nil, List.drop_zero] at h5 h6 h7
  refine ⟨herr, ?_, ?_, h7, h9⟩
  · rw [h5]; simp [setCreates]; decide
  · rw [h6]; decide

/-- C5. Ambiguous match fails closed in set.  Take a provider whose domain lookup
succeeds and that answers the lookup of each identifier-less record `x` with the listing
`view x` as long as only reads are made.  If the batch is `done ++ r :: rest`, where no
lookup of `done` gives more than one match and the identifier-less record `r` has two
or more, then `SetRecords` returns the error naming `r` and no records, and every
request it has made is a read: no create, update or delete request, for `r` or for any
other record of the batch. -/
theorem SetRecords_ambiguous_fails_closed (lib : Lib) (api : Api) (log : List Request)
    (zone : String) (d : dnslaDomainResponse) (view : Record → dnslaDomainRecordsResponse)
    (done : List Record) (r : Record) (rest : List Record)
    (hd : api.domain log (libdnsZoneToDnslaDomain zone) = .ok d)
    (hview : ∀ ext : List Request, (∀ q ∈ ext, q.isRead = true) → ∀ x ∈ done ++ [r],
      x.ID = "" → api.recordList (log ++ ext) (matchQuery x d.ID) = .ok (view x))
    (hdone : ∀ x ∈ done, x.ID = "" → (view x).Results.length ≤ 1)
    (hid : r.ID = "") (hamb : 2 ≤ (view r).Results.length) :
    (SetRecords lib api log zone (done ++ r :: rest)).err = some (.ambiguous r) ∧
    (SetRecords lib api log zone (done ++ r :: rest)).records = [] ∧
    (∀ q ∈ (SetRecords lib api log zone (done ++ r :: rest)).log.drop log.length,
      q.isRead = true) ∧
    createsOf ((SetRecords lib api log zone (done ++ r :: rest)).log.drop log.length) = [] ∧
    updatesOf ((SetRecords lib api log zone (done ++ r :: rest)).log.drop log.length) = [] ∧
    deletesOf ((SetRecords lib api log zone (done ++ r :: rest)).log.drop log.length) = [] := by
  obtain ⟨ext1, hext1, hcl⟩ := classifyLoop_ambiguous lib api log d.ID zone view done r rest
    ⟨[], [], log ++ [.domain (libdnsZoneToDnslaDomain zone)]⟩
    [.domain (libdnsZoneToDnslaDomain zone)] rfl
    (by intro q hq; simp at hq; subst hq; rfl) hview hdone hid hamb
  rw [SetRecords_classify_error lib api log zone _ d _ _ hd hcl]
  obtain ⟨h1, h2, h3⟩ := reads_no_mutation ext1 hext1
  refine ⟨rfl, rfl, ?_, ?_, ?_, ?_⟩
  · simpa only [List.drop_left] using hext1
  · simpa only [List.drop_left] using h1
  · simpa only [List.drop_left] using h2
  · simpa only [List.drop_left] using h3

theorem SetRecords_ambiguous_fails_closed_witness :
    (SetRecords simLib (simApi remote2) [] "example.com."
      ([wanted "1"] ++ wanted "" :: [wantedMail])).err = some (.ambiguous (wanted "")) ∧
    (SetRecords simLib (simApi remote2) [] "example.com."
      ([wanted "1"] ++ wanted "" :: [wantedMail])).records = [] ∧
    updatesOf (SetRecords simLib (simApi remote2) [] "example.com."
      ([wanted "1"] ++ wanted "" :: [wantedMail])).log = [] := by
  have h := SetRecords_ambiguous_fails_closed simLib (simApi remote2) [] "example.com." ⟨"d1"⟩
    (fun x => simList remote2 [] (matchQuery x "d1")) [wanted "1"] (wanted "") [wantedMail]
    rfl (fun ext he x _ _ => simApi_view remote2 ext (matchQuery x "d1") he)
    (by decide) (by decide) (by decide)
  exact ⟨h.1, h.2.1, h.2.2.2.2.1⟩

end Dnsla
